import Mathlib

/-!
Shallow embedding of the rs-dashboard core (pipeline orchestrator and RS
calculation engine) and proofs about it.

Conventions of the embedding:
* dates are natural numbers ordered like the ISO `YYYY-MM-DD` strings the
  code compares lexicographically;
* numeric values are exact rationals (`ℚ`); a cell that may be missing/NaN
  in a pandas frame is an `Option ℚ` with `none` playing the role of NaN;
* SQL tables keyed by a primary key become association lists or functions
  to `Option`;
* `round(x, n)` is Python's round-half-to-even at `n` decimal places.
-/

namespace RsDashboard

/-- Python `round(x, 0)`: round half to even (banker's rounding). -/
def pyRound0 (x : ℚ) : ℤ :=
  let f := ⌊x⌋
  let r := x - f
  if r < 1/2 then f
  else if 1/2 < r then f + 1
  else if f % 2 = 0 then f else f + 1

/-- Python `round(x, 2)` as used for `rs_score` before storage. -/
def round2 (x : ℚ) : ℚ := (pyRound0 (x * 100) : ℚ) / 100

/-- Python `round(x, 6)` as used for `weighted_return` / `daily_return`. -/
def round6 (x : ℚ) : ℚ := (pyRound0 (x * 1000000) : ℚ) / 1000000

/-- `np.dot` of two vectors represented as lists. -/
def dotProduct (a b : List ℚ) : ℚ := (List.zipWith (· * ·) a b).sum

/-- `settings.get_weight_array()` with the default settings
`[q1,q2,q3,q4] = [0.4, 0.2, 0.2, 0.2]`. -/
def default_weight_array : List ℚ := [2/5, 1/5, 1/5, 1/5]

/-- The quarter boundaries of `_calculate_quarterly_returns_from_prices` /
`_calculate_quarterly_returns_from_daily_returns`: for a window of `n`
observations the pairs `(max(0,n-63),n)`, `(max(0,n-126),max(0,n-63))`,
`(max(0,n-189),max(0,n-126))`, `(max(0,n-252),max(0,n-189))` (ℕ
subtraction is truncated, so `n - k` is `max(0, n-k)`). -/
def quarterBounds (n : ℕ) : List (ℕ × ℕ) :=
  [(n - 63, n), (n - 126, n - 63), (n - 189, n - 126), (n - 252, n - 189)]

/-- One quarter of `_calculate_quarterly_returns_from_prices` for a single
column: `np.where(first > 0 ∧ ¬isnan first ∧ ¬isnan last, last/first - 1, 0)`
where `first = window[start_idx]` and `last = window[end_idx - 1]`. -/
def priceSegmentReturn (w : List (Option ℚ)) (s e : ℕ) : ℚ :=
  match w.getD s none, w.getD (e - 1) none with
  | some f, some l => if 0 < f then l / f - 1 else 0
  | _, _ => 0

/-- `_calculate_quarterly_returns_from_prices`, one column of the
vectorized computation (numpy operates columnwise and independently per
stock).  Produces the four quarterly returns `[Q1, Q2, Q3, Q4]`.  The two
early returns of the source (`size == 0` and `n_days < 20`, both yielding
zeros) are kept. -/
def calculate_quarterly_returns_from_prices (w : List (Option ℚ)) : List ℚ :=
  if w.length = 0 then [0, 0, 0, 0]
  else if w.length < 20 then [0, 0, 0, 0]
  else (quarterBounds w.length).map fun p =>
    if p.2 ≤ p.1 ∨ p.2 - p.1 < 20 then 0
    else priceSegmentReturn w p.1 p.2

/-- One quarter of `_calculate_quarterly_returns_from_daily_returns` for a
single column: `np.prod(1 + np.nan_to_num(window[start:end], nan=0)) - 1`. -/
def returnsSegmentReturn (w : List (Option ℚ)) (s e : ℕ) : ℚ :=
  ((((w.drop s).take (e - s))).map (fun v => 1 + v.getD 0)).prod - 1

/-- `_calculate_quarterly_returns_from_daily_returns`, one column. -/
def calculate_quarterly_returns_from_daily_returns (w : List (Option ℚ)) : List ℚ :=
  if w.length = 0 then [0, 0, 0, 0]
  else if w.length < 20 then [0, 0, 0, 0]
  else (quarterBounds w.length).map fun p =>
    if p.2 ≤ p.1 ∨ p.2 - p.1 < 20 then 0
    else returnsSegmentReturn w p.1 p.2

/-- `_get_benchmark_quarterly_returns(bench_window_values, weights)`:
always applies `_calculate_quarterly_returns_from_daily_returns` to the
given window (whatever that window holds) and dots with the weights. -/
def get_benchmark_quarterly_returns (benchWindow : List (Option ℚ))
    (weights : List ℚ) : ℚ :=
  dotProduct weights (calculate_quarterly_returns_from_daily_returns benchWindow)

/-- The `np.where(bench_weighted > -1, (1+stock)/(1+bench)*100, 100.0)`
scalar: raw (pre-rounding) RS score of one entity. -/
def rsScoreRaw (entityWeighted benchWeighted : ℚ) : ℚ :=
  if -1 < benchWeighted then (1 + entityWeighted) / (1 + benchWeighted) * 100
  else 100

/-- The validity filter `(rs >= 10) & (rs <= 500) & ~np.isnan(rs)`; over ℚ
no NaN arises so the two range tests remain. -/
def validScore (s : ℚ) : Bool := decide (10 ≤ s) && decide (s ≤ 500)

/-- `pd.Series(scores).rank(pct=True)`: the average rank of entry `i`
divided by the series length.  A tie block occupying positions
`c_lt+1 … c_lt+c_eq` gets rank `c_lt + (c_eq+1)/2`. -/
def avgRankPct (scores : List ℚ) (i : ℕ) : ℚ :=
  let s := scores.getD i 0
  (((scores.filter (fun x => x < s)).length : ℚ) +
    (((scores.filter (fun x => x = s)).length : ℚ) + 1) / 2) / scores.length

/-- `_calculate_percentiles(scores)`:
`(pd.Series(scores).rank(pct=True) * 100).astype(int)`.  `astype(int)`
truncates toward zero; ranks are positive here so this is the floor. -/
def calculate_percentiles (scores : List ℚ) : List ℤ :=
  (List.range scores.length).map fun i => ⌊avgRankPct scores i * 100⌋

/-- The `effective_min_points` adjustment of `_do_calculate_stock_rs`:
`min(min_points, available_days // 2)` raised to at least 60. -/
def effectiveMinPoints (minPoints availableDays : ℕ) : ℕ :=
  max 60 (min minPoints (availableDays / 2))

/-- A pivoted (dates × entities) frame as produced by `_load_price_matrix`
/ `_load_sector_returns` / `_load_industry_returns`: a sorted date index,
the entity columns, and the cell contents (`none` = NaN cell). -/
structure SeriesMatrix where
  dates : List ℕ
  symbols : List String
  entry : ℕ → String → Option ℚ

/-- A benchmark series (`benchmark_prices` for stocks,
`_load_benchmark_returns` for sectors/industries): its own date index and
values. -/
structure BenchSeries where
  dates : List ℕ
  val : ℕ → Option ℚ

/-- `frame.loc[frame.index <= d].tail(lookback)` applied to a date index:
keep the index entries `≤ d`, then the last `lookback` of them. -/
def windowDates (idx : List ℕ) (lookback d : ℕ) : List ℕ :=
  let m := idx.filter (· ≤ d)
  m.drop (m.length - lookback)

/-- An entity's trailing window for target date `d`: the window's dates
mapped through its column of the matrix. -/
def entityWindow (mx : SeriesMatrix) (lookback d : ℕ) (s : String) : List (Option ℚ) :=
  (windowDates mx.dates lookback d).map fun t => mx.entry t s

/-- The benchmark's trailing window for target date `d`. -/
def benchWindowFor (b : BenchSeries) (lookback d : ℕ) : List (Option ℚ) :=
  (windowDates b.dates lookback d).map b.val

/-- `entity_type` of an `rs_scores` row. -/
inductive EntityType | stock | sector | industry
deriving DecidableEq, Repr

/-- One `rs_scores` row as assembled into `batch_results` and persisted by
`save_rs_scores`. -/
structure RSRow where
  entity_type : EntityType
  entity_name : String
  date : ℕ
  rs_score : ℚ
  percentile : ℤ
  weighted_return : ℚ
deriving DecidableEq, Repr

/-- The weighted return `np.dot(weights, stock_q_returns)` of one stock
(prices pipeline) for target date `d`. -/
def stockWeightedReturn (pm : SeriesMatrix) (weights : List ℚ)
    (lookback d : ℕ) (s : String) : ℚ :=
  dotProduct weights (calculate_quarterly_returns_from_prices (entityWindow pm lookback d s))

/-- The weighted return of one sector/industry (daily-returns pipeline)
for target date `d`. -/
def groupWeightedReturn (rm : SeriesMatrix) (weights : List ℚ)
    (lookback d : ℕ) (s : String) : ℚ :=
  dotProduct weights
    (calculate_quarterly_returns_from_daily_returns (entityWindow rm lookback d s))

/-- The per-entity validity filter and score computation shared by the
three `_do_calculate_*_rs` loops beneath the vectorization: for each
entity name its `(name, raw score, weighted return)` triple survives iff
the score passes the validity filter.  numpy's vectorized computation acts
columnwise, i.e. independently per entity. -/
def validTriples (names : List String) (weightedOf : String → ℚ)
    (benchWeighted : ℚ) : List (String × ℚ × ℚ) :=
  names.filterMap fun s =>
    let sw := weightedOf s
    let score := rsScoreRaw sw benchWeighted
    if validScore score then some (s, score, sw) else none

/-- The percentile ranking and record assembly shared by the three
`_do_calculate_*_rs` loops: percentiles are computed over the valid
scores of this date only, and each surviving triple becomes one
`rs_scores` row (`rs_score` rounded to 2 places, `weighted_return` to 6,
percentile stored as an integer). -/
def assembleRows (etype : EntityType) (d : ℕ) (valids : List (String × ℚ × ℚ)) :
    List RSRow :=
  List.zipWith
    (fun v p => RSRow.mk etype v.1 d (round2 v.2.1) p (round6 v.2.2))
    valids (calculate_percentiles (valids.map fun v => v.2.1))

/-- The per-date body of `_do_calculate_stock_rs`: guards on the window
lengths against `effective_min_points`, computes the scalar benchmark
weighted return, per-stock scores, applies the validity filter, ranks
percentiles among the surviving scores of this date, and assembles the
rows appended to `batch_results`.  The source's shape-validation branches
(`ndim != 1`, length mismatches) cannot trigger in this model and
`if not np.any(valid_mask): continue` coincides with producing no rows. -/
def stockRowsForDate (pm : SeriesMatrix) (b : BenchSeries) (weights : List ℚ)
    (lookback minPoints d : ℕ) : List RSRow :=
  let effMin := effectiveMinPoints minPoints pm.dates.length
  if (windowDates pm.dates lookback d).length < effMin then []
  else if (windowDates b.dates lookback d).length < effMin then []
  else
    assembleRows .stock d
      (validTriples pm.symbols (stockWeightedReturn pm weights lookback d)
        (get_benchmark_quarterly_returns (benchWindowFor b lookback d) weights))

/-- The per-date body shared verbatim (up to the entity type and data
source) by `_do_calculate_sector_rs` and `_do_calculate_industry_rs`: the
window-length guard uses the configured `min_points` directly, and
quarterly returns come from daily returns. -/
def groupRowsForDate (etype : EntityType) (rm : SeriesMatrix) (b : BenchSeries)
    (weights : List ℚ) (lookback minPoints d : ℕ) : List RSRow :=
  if (windowDates rm.dates lookback d).length < minPoints ∨
      (windowDates b.dates lookback d).length < minPoints then []
  else
    assembleRows etype d
      (validTriples rm.symbols (groupWeightedReturn rm weights lookback d)
        (get_benchmark_quarterly_returns (benchWindowFor b lookback d) weights))

/-- `_do_calculate_stock_rs(dates)`: sort the target dates ascending and
collect the rows every date contributes (the batched `save_rs_scores`
flushes persist exactly this concatenation). -/
def do_calculate_stock_rs (pm : SeriesMatrix) (b : BenchSeries) (weights : List ℚ)
    (lookback minPoints : ℕ) (dates : List ℕ) : List RSRow :=
  (dates.insertionSort (· ≤ ·)).flatMap (stockRowsForDate pm b weights lookback minPoints)

/-- `_do_calculate_sector_rs(dates)`. -/
def do_calculate_sector_rs (rm : SeriesMatrix) (b : BenchSeries) (weights : List ℚ)
    (lookback minPoints : ℕ) (dates : List ℕ) : List RSRow :=
  (dates.insertionSort (· ≤ ·)).flatMap
    (groupRowsForDate .sector rm b weights lookback minPoints)

/-- `_do_calculate_industry_rs(dates)`. -/
def do_calculate_industry_rs (rm : SeriesMatrix) (b : BenchSeries) (weights : List ℚ)
    (lookback minPoints : ℕ) (dates : List ℕ) : List RSRow :=
  (dates.insertionSort (· ≤ ·)).flatMap
    (groupRowsForDate .industry rm b weights lookback minPoints)

/-- The unchanged inputs of one `calculate_all_rs` run: the stock price
matrix with its benchmark price series, the sector and industry return
matrices with the benchmark return series, and the settings. -/
structure CalcInputs where
  pm : SeriesMatrix
  benchPrices : BenchSeries
  sm : SeriesMatrix
  im : SeriesMatrix
  benchReturns : BenchSeries
  weights : List ℚ
  lookback : ℕ
  minPoints : ℕ

/-- All rows `_do_calculate_all_rs` persists over one run: the stock rows,
then the sector rows, then the industry rows, in execution order. -/
def do_calculate_all_rs_rows (inp : CalcInputs) (dates : List ℕ) : List RSRow :=
  do_calculate_stock_rs inp.pm inp.benchPrices inp.weights inp.lookback inp.minPoints dates ++
  do_calculate_sector_rs inp.sm inp.benchReturns inp.weights inp.lookback inp.minPoints dates ++
  do_calculate_industry_rs inp.im inp.benchReturns inp.weights inp.lookback inp.minPoints dates

/-- The natural key of an `rs_scores` row: `(entity_type, entity_name, date)`. -/
abbrev RSKey := EntityType × String × ℕ

/-- The value part of an `rs_scores` row. -/
abbrev RSVal := ℚ × ℤ × ℚ

/-- Key of a row. -/
def RSRow.key (r : RSRow) : RSKey := (r.entity_type, r.entity_name, r.date)

/-- Value of a row. -/
def RSRow.val (r : RSRow) : RSVal := (r.rs_score, r.percentile, r.weighted_return)

/-- The persisted `rs_scores` table, as a map from its primary key. -/
abbrev RSStore := RSKey → Option RSVal

/-- `save_rs_scores(scores)`: `INSERT OR REPLACE` row by row, later rows
overwriting earlier ones with the same key. -/
def save_rs_scores (rows : List RSRow) (st : RSStore) : RSStore :=
  rows.foldl (fun acc r => fun k => if k = r.key then some r.val else acc k) st

/-- One run of `calculate_all_rs(dates)` as a transformation of the
persisted `rs_scores` table (the run reads only prices, sector/industry
returns and settings — all in `inp` — never `rs_scores` itself). -/
def calculate_all_rs_run (inp : CalcInputs) (dates : List ℕ) (st : RSStore) : RSStore :=
  save_rs_scores (do_calculate_all_rs_rows inp dates) st

/-- Task lifecycle status as stored in the `task_status` table. -/
inductive TStatus | running | completed | failed
deriving DecidableEq, Repr

/-- The `task_status` table: rows keyed by `task_id` (primary key, so keys
are unique; a task that has not created its row yet is simply absent). -/
abbrev TaskTable := List (String × TStatus)

/-- `db.get_task_status(task_id)`: the row for the id, or not-found. -/
def get_task_status (tbl : TaskTable) (tid : String) : Option TStatus :=
  (tbl.find? (fun r => r.1 = tid)).map (·.2)

/-- `db.check_tasks_completed(task_ids)`: an empty list is vacuously
complete; otherwise the SQL counts the `task_status` rows whose id is in
the list (`total`) and those among them with status `completed`, and the
check passes iff `total > 0 ∧ total = completed`.  Ids with no row
contribute to neither count. -/
def check_tasks_completed (tbl : TaskTable) (ids : List String) : Bool :=
  if ids.isEmpty then true
  else
    let rows := tbl.filter fun r => r.1 ∈ ids
    decide (0 < rows.length) &&
      decide (rows.length = (rows.filter fun r => r.2 = TStatus.completed).length)

/-- Batch status of the `batch_tasks` table. -/
inductive BStatus | running | completed | error
deriving DecidableEq, Repr

/-- One `batch_tasks` row. -/
structure Batch where
  batch_id : String
  stage : ℕ
  status : BStatus
  price_tasks : List String
  return_tasks : List String
  rs_task : Option String
deriving Repr

/-- `_start_stage2_returns`: the groups which get one aggregation task
each — every known sector and every known industry, skipping falsy names
and `"Unknown"`. -/
def stage2_groups (sectors industries : List String) : List String :=
  sectors.filter (fun s => s ≠ "" ∧ s ≠ "Unknown") ++
    industries.filter (fun s => s ≠ "" ∧ s ≠ "Unknown")

/-- The body of `check_and_advance_pipeline` for one active batch: at
stage 1, if `check_tasks_completed` passes on the recorded price-task ids,
submit the stage-2 aggregation tasks (`newTaskId g` is the id the executor
hands the task of group `g`) and advance to stage 2; analogously at stage
2 with the return-task ids (advancing submits the single `calculate_all_rs`
task `newRsId`); and at stage 3 a completed RS task completes the batch. -/
def check_and_advance_batch (tbl : TaskTable) (sectors industries : List String)
    (newTaskId : String → String) (newRsId : String) (b : Batch) : Batch :=
  if b.stage = 1 then
    if check_tasks_completed tbl b.price_tasks then
      { b with stage := 2, status := .running,
               return_tasks := (stage2_groups sectors industries).map newTaskId }
    else b
  else if b.stage = 2 then
    if check_tasks_completed tbl b.return_tasks then
      { b with stage := 3, status := .running, rs_task := some newRsId }
    else b
  else if b.stage = 3 then
    match b.rs_task with
    | some t => if check_tasks_completed tbl [t] then { b with status := .completed } else b
    | none => b
  else b

/-- `tasks.submit_task(func, *args)` (both the price-engine and the
calc-engine pool): generate a task id, hand the work to the single-worker
executor queue, and return the id immediately.  Nothing is written to the
`task_status` table here. -/
def submit_task (tbl : TaskTable) (queue : List String) (fresh : String) :
    String × TaskTable × List String :=
  (fresh, tbl, queue ++ [fresh])

/-- An observable `task_status` operation a work function performs. -/
inductive StatusOp
  | create (tid : String)
  | update (tid : String) (st : TStatus)
deriving DecidableEq, Repr

/-- `db.create_task_status` / `db.update_task_status` applied to the
table: creation is `INSERT OR REPLACE` with status `running`; update
touches the existing row only (SQL `UPDATE` of a missing row is a no-op). -/
def apply_status_op (tbl : TaskTable) : StatusOp → TaskTable
  | .create tid => (tid, TStatus.running) :: tbl.filter (fun r => r.1 ≠ tid)
  | .update tid st => tbl.map fun r => if r.1 = tid then (r.1, st) else r

/-- Outcome of one attempted call to the external price source. -/
inductive FetchOutcome | ok | err (msg : List Char)
deriving DecidableEq

/-- `MAX_RETRIES` of `yfinance_provider`. -/
def MAX_RETRIES : ℕ := 3

/-- `RETRY_DELAY` of `yfinance_provider` (seconds). -/
def RETRY_DELAY : ℕ := 2

/-- The rate-limit classification of `_fetch_with_retry`: the lowercased
error message contains `"rate"`, `"too many"`, or `"429"`. -/
def is_rate_limit_error (msg : List Char) : Bool :=
  let m := msg.map Char.toLower
  decide (List.IsInfix "rate".toList m) || decide (List.IsInfix "too many".toList m) ||
    decide (List.IsInfix "429".toList m)

/-- The retry loop of `_fetch_with_retry`, from a given attempt index (the
source iterates `attempt in range(MAX_RETRIES)`).  `oracle n` is the
outcome of the `n`-th call to the external source.  Returns the backoff
sleeps taken between attempts and the final outcome; a non-rate-limit
error, or a rate-limit error on the final attempt, is re-raised at once. -/
def fetch_with_retry_from (oracle : ℕ → FetchOutcome) (attempt : ℕ) :
    List ℕ × FetchOutcome :=
  match oracle attempt with
  | .ok => ([], .ok)
  | .err m =>
    if h : is_rate_limit_error m = true ∧ attempt < MAX_RETRIES - 1 then
      have : MAX_RETRIES - 1 - (attempt + 1) < MAX_RETRIES - 1 - attempt := by omega
      let rest := fetch_with_retry_from oracle (attempt + 1)
      (RETRY_DELAY * (attempt + 1) :: rest.1, rest.2)
    else ([], .err m)
termination_by MAX_RETRIES - 1 - attempt

/-- `_fetch_with_retry(func, symbol, ...)`. -/
def fetch_with_retry (oracle : ℕ → FetchOutcome) : List ℕ × FetchOutcome :=
  fetch_with_retry_from oracle 0

/-- Number of calls `_fetch_with_retry` makes to the external source: one
per attempt, i.e. one more than the number of backoff sleeps. -/
def fetch_attempts (oracle : ℕ → FetchOutcome) : ℕ :=
  (fetch_with_retry oracle).1.length + 1

/-- The final task status `_do_fetch_ticker_data` records for a fetch
task whose external call runs through `_fetch_with_retry`: an exception
propagating out of the retry loop is caught by the task body and recorded
as `failed`; otherwise the task runs to `completed`. -/
def fetch_task_final_status (oracle : ℕ → FetchOutcome) : TStatus :=
  match (fetch_with_retry oracle).2 with
  | .ok => .completed
  | .err _ => .failed

/-- The `task_status` operations `_do_fetch_ticker_data(task_id, ...)`
performs, in order: it creates its own row (status `running`) as its first
store action, reports progress while running, and ends with `completed`
or `failed` according to the external call's outcome. -/
def do_fetch_ticker_data_status_ops (tid : String) (oracle : ℕ → FetchOutcome) :
    List StatusOp :=
  StatusOp.create tid ::
    match (fetch_with_retry oracle).2 with
    | .ok => [StatusOp.update tid .running, StatusOp.update tid .completed]
    | .err _ => [StatusOp.update tid .running, StatusOp.update tid .failed]

/-- One cached/fetched price row (the fields the incremental-fetch claims
touch). -/
structure PriceRow where
  date : ℕ
  adjclose : ℚ
  daily_return : Option ℚ
deriving DecidableEq, Repr

/-- A raw provider history row (date and adjusted close). -/
structure RawRow where
  date : ℕ
  adjclose : ℚ
deriving DecidableEq, Repr

/-- The per-row conversion of `_fetch_prices_from_yfinance`: the first
row's `daily_return` is `None`; each later row's is the rounded percentage
change of adjusted close versus the previous row. -/
def fetch_prices_from_provider (hist : List RawRow) : List PriceRow :=
  (List.range hist.length).map fun i =>
    let r := hist.getD i ⟨0, 0⟩
    let dr :=
      if i = 0 then none
      else
        let prev := (hist.getD (i - 1) ⟨0, 0⟩).adjclose
        if prev = 0 then none
        else some (round6 ((r.adjclose - prev) / prev))
    ⟨r.date, r.adjclose, dr⟩

/-- `db.get_last_price_date(symbol)` over the cached rows (kept sorted by
date, as `get_prices` returns them). -/
def get_last_price_date (cached : List PriceRow) : Option ℕ :=
  (cached.map (·.date)).max?

/-- One `INSERT OR REPLACE` of `db.save_prices`, keyed by
`(symbol, date)`: the new row replaces any cached row carrying the same
date, otherwise it is appended. -/
def save_prices_step (acc : List PriceRow) (p : PriceRow) : List PriceRow :=
  if acc.any (fun r => r.date = p.date) then
    acc.map fun r => if r.date = p.date then p else r
  else acc ++ [p]

/-- `db.save_prices`: the bulk `executemany` upsert, row by row. -/
def save_prices (cached : List PriceRow) (newRows : List PriceRow) : List PriceRow :=
  newRows.foldl save_prices_step cached

/-- The `prices`-table point read at a date (primary key `(symbol,date)`,
so the first match is the row). -/
def find_price (rows : List PriceRow) (d : ℕ) : Option PriceRow :=
  rows.find? fun r => r.date = d

/-- The cache-boundary bridge of `_do_fetch_ticker_data`: when there are
cached rows and new rows, and the last cached adjusted close is non-zero,
the first new row's `daily_return` is recomputed against the last cached
adjusted close. -/
def bridge_daily_return (cached newRows : List PriceRow) : List PriceRow :=
  match cached.getLast?, newRows with
  | some lastCached, first :: rest =>
    if lastCached.adjclose ≠ 0 then
      { first with
        daily_return :=
          some (round6 ((first.adjclose - lastCached.adjclose) / lastCached.adjclose)) } :: rest
    else first :: rest
  | _, _ => newRows

/-- The incremental branch of `_do_fetch_ticker_data` for an existing
symbol (`last_price_date` present): when the last cached date is at least
one day old, request history starting at `fetch_start = last_price_date`
itself, bridge the first new row's return across the cache boundary, and
upsert.  `provider start end` models `ticker.history(start, end)`. -/
def incremental_fetch (cached : List PriceRow) (today endDate : ℕ)
    (provider : ℕ → ℕ → List RawRow) : List PriceRow :=
  match get_last_price_date cached with
  | none => cached
  | some lastDate =>
    if 1 ≤ today - lastDate then
      let fetchStart := lastDate
      let newPrices := fetch_prices_from_provider (provider fetchStart endDate)
      if newPrices.isEmpty then cached
      else save_prices cached (bridge_daily_return cached newPrices)
    else cached

/-- The start date the incremental branch requests from the provider. -/
def incremental_fetch_start (cached : List PriceRow) : Option ℕ :=
  get_last_price_date cached

/-! ### Definitions taken from the specification's words

These follow the spec (not the source) and exist to be compared with the
source-derived definitions above, or to express what a claim asserts. -/

/-- Spec wording (claim about quarterly windowing): the quarter segments
of a window of `n` observations, counted from its end, are
`[0,63), [63,126), [126,189), [189,252)`, clipped to `n`.  Segment `q` in
absolute (chronological) indices is therefore `[n - 63*(q+1), n - 63*q)`
(clipped at 0 by ℕ subtraction). -/
def specQuarterSegment (w : List (Option ℚ)) (q : ℕ) : List (Option ℚ) :=
  (w.drop (w.length - 63 * (q + 1))).take
    ((w.length - 63 * q) - (w.length - 63 * (q + 1)))

/-- Spec wording: a price-based segment shorter than 20 observations
contributes exactly 0; otherwise its return is `last/first - 1`, yielding
0 when the first price is zero, negative, or NaN, or the last is NaN. -/
def spec_price_segment_value (seg : List (Option ℚ)) : ℚ :=
  if seg.length < 20 then 0
  else
    match seg.head?.join, seg.getLast?.join with
    | some f, some l => if 0 < f then l / f - 1 else 0
    | _, _ => 0

/-- Spec wording: a returns-based segment shorter than 20 observations
contributes exactly 0; otherwise `Π(1+r_i) - 1` over the segment with NaN
daily returns treated as 0. -/
def spec_returns_segment_value (seg : List (Option ℚ)) : ℚ :=
  if seg.length < 20 then 0
  else (seg.map fun v => 1 + v.getD 0).prod - 1

/-- Spec wording: quarterly return `q` of a price window. -/
def spec_quarterly_from_prices (w : List (Option ℚ)) (q : ℕ) : ℚ :=
  spec_price_segment_value (specQuarterSegment w q)

/-- Spec wording: quarterly return `q` of a daily-returns window. -/
def spec_quarterly_from_returns (w : List (Option ℚ)) (q : ℕ) : ℚ :=
  spec_returns_segment_value (specQuarterSegment w q)

/-- The completion condition the code actually applies when advancing a
stage (amended claim C1): an empty id list counts as complete; otherwise
at least one recorded id must have a `task_status` row and every recorded
id that has a row must be `completed` — recorded ids without a persisted
row are ignored by the SQL count. -/
def tasks_completed_spec (tbl : TaskTable) (ids : List String) : Prop :=
  ids = [] ∨
    (tbl.filter (fun r => r.1 ∈ ids) ≠ [] ∧
      ∀ r ∈ tbl.filter (fun r => r.1 ∈ ids), r.2 = TStatus.completed)

/-- Claim C1 as stated: advancement out of stage 1 happens iff every
recorded id's persisted status is `completed`. -/
def claimC1_all_completed (tbl : TaskTable) (ids : List String) : Prop :=
  ∀ tid ∈ ids, get_task_status tbl tid = some TStatus.completed

/-- Claim C3 as stated, for one entity class with data matrix `mx`: a row
for `(s, d)` should exist iff both windows meet the *effective*
minimum-points threshold computed from the class's available days. -/
def claimC3_row_expected (mx : SeriesMatrix) (b : BenchSeries)
    (score : String → ℚ) (lookback minPoints d : ℕ) (s : String) : Prop :=
  effectiveMinPoints minPoints mx.dates.length ≤ (windowDates mx.dates lookback d).length ∧
  effectiveMinPoints minPoints mx.dates.length ≤ (windowDates b.dates lookback d).length ∧
  validScore (score s) = true

/-! ### Concrete scenarios used by counterexamples and witnesses -/

/-- 300 consecutive trading days (dates 1..300). -/
def dates300 : List ℕ := (List.range 300).map (· + 1)

/-- Claim C2's scenario, stock side: symbol "ABC" with a constant close
price of 1.0 on each of 300 days. -/
def pm_scenC2 : SeriesMatrix := ⟨dates300, ["ABC"], fun _ _ => some 1⟩

/-- Claim C2's scenario, benchmark side: "SPY" with a constant close price
of 1.0 on each of 300 days. -/
def bench_scenC2 : BenchSeries := ⟨dates300, fun _ => some 1⟩

/-- Claim C2's expected `w_spy`: the dot product of the default weights
with the benchmark's per-quarter returns obtained by cumulative
compounding of its *daily returns* over the 252-day window — for a
constant price series the daily returns are all 0. -/
def claimC2_w_spy : ℚ :=
  dotProduct default_weight_array
    (calculate_quarterly_returns_from_daily_returns (List.replicate 252 (some 0)))

/-- Claim C2's expected `w_abc`: the dot product of the default weights
with ABC's per-quarter price returns (`last/first - 1`) over the 252-day
window of constant prices. -/
def claimC2_w_abc : ℚ :=
  dotProduct default_weight_array
    (calculate_quarterly_returns_from_prices (List.replicate 252 (some 1)))

/-- Claim C2's expected stored score `round((1+w_abc)/(1+w_spy)*100, 2)`. -/
def claimC2_expected_score : ℚ :=
  round2 ((1 + claimC2_w_abc) / (1 + claimC2_w_spy) * 100)

/-- 100 consecutive trading days (dates 1..100). -/
def dates100 : List ℕ := (List.range 100).map (· + 1)

/-- Claim C3's sector counterexample: one sector "S" with a 0.0 daily
return on each of 100 days. -/
def sm_scenC3 : SeriesMatrix := ⟨dates100, ["S"], fun _ _ => some 0⟩

/-- Claim C3's sector counterexample: benchmark daily returns of 0.0 on
each of 100 days. -/
def bench_scenC3 : BenchSeries := ⟨dates100, fun _ => some 0⟩

/-- C3 witness scenario, stock side: "ABC" with constant price 1.0 over
100 days (the stock class *does* apply the effective threshold). -/
def pm_scenC3 : SeriesMatrix := ⟨dates100, ["ABC"], fun _ _ => some 1⟩

/-- C3 witness scenario, benchmark prices all 0.0 (their compounding
yields 0, so stock scores stay valid). -/
def bench0_scenC3 : BenchSeries := ⟨dates100, fun _ => some 0⟩

/-- 130 consecutive trading days (dates 1..130). -/
def dates130 : List ℕ := (List.range 130).map (· + 1)

/-- C5 witness scenario: one sector "S" with 0.0 daily returns over 130
days. -/
def sm_scenC5 : SeriesMatrix := ⟨dates130, ["S"], fun _ _ => some 0⟩

/-- C5 witness scenario: benchmark daily returns constantly -2.0, so the
benchmark weighted return is -1.2 ≤ -1 (total collapse branch). -/
def bench_scenC5 : BenchSeries := ⟨dates130, fun _ => some (-2)⟩

/-- 20 consecutive trading days (dates 1..20). -/
def dates20 : List ℕ := (List.range 20).map (· + 1)

/-- C7 witness scenario: sector "A" with 0.0 daily returns and sector "B"
with -1.0 daily returns over 20 days. -/
def sm_scenC7 : SeriesMatrix :=
  ⟨dates20, ["A", "B"], fun _ s => if s = "A" then some 0 else some (-1)⟩

/-- C7 witness scenario: benchmark daily returns of 0.0 over 20 days. -/
def bench_scenC7 : BenchSeries := ⟨dates20, fun _ => some 0⟩

/-- C1 counterexample table: task "a" has a completed row, task "b" has
not created its row yet (its work has not started). -/
def tbl_scenC1 : TaskTable := [("a", TStatus.completed)]

/-- C1 counterexample batch: stage 1, running, two recorded fetch tasks. -/
def batch_scenC1 : Batch := ⟨"batch1", 1, BStatus.running, ["a", "b"], [], none⟩

/-- C1 witness table: both recorded fetch tasks have completed rows. -/
def tblW_scenC1 : TaskTable := [("a", TStatus.completed), ("b", TStatus.completed)]

/-- C9 witness oracle: the first two external calls fail with a rate-limit
message, the third succeeds. -/
def oracle_scenC9 : ℕ → FetchOutcome :=
  fun n => if n < 2 then FetchOutcome.err "Rate limit exceeded".toList else FetchOutcome.ok

/-- C10 scenario: two cached price rows, the last dated 11 with adjusted
close 52. -/
def cached_scenC10 : List PriceRow := [⟨10, 50, none⟩, ⟨11, 52, some (1/25)⟩]

/-- C10 scenario: the provider returns history starting at the requested
date — its first row carries date 11 with the unchanged adjusted close 52. -/
def provider_scenC10 : ℕ → ℕ → List RawRow := fun _ _ => [⟨11, 52⟩, ⟨12, 54⟩]

/-! ## Theorems -/

/-- `save_rs_scores` realizes last-write-wins on the primary key: the
stored value at `k` is the last pushed row with key `k`, or the previous
content. -/
theorem save_rs_scores_apply (rows : List RSRow) (st : RSStore) (k : RSKey) :
    save_rs_scores rows st k =
      ((rows.filter fun r => r.key = k).getLast?).elim (st k) (fun r => some r.val) := by
  induction rows generalizing st with
  | nil => rfl
  | cons r rs ih =>
    show save_rs_scores rs _ k = _
    rw [ih, List.filter_cons]
    by_cases h : r.key = k
    · rw [if_pos (by simp [h])]
      cases hfilter : rs.filter (fun r => r.key = k) with
      | nil => simp [h.symm]
      | cons x xs =>
        rw [List.getLast?_cons_cons]
        obtain ⟨y, hy⟩ := Option.isSome_iff_exists.mp
          (List.getLast?_isSome.mpr (List.cons_ne_nil x xs))
        rw [hy]
        rfl
    · rw [if_neg (by simp [h])]
      have hk : ¬ (k = r.key) := fun hc => h hc.symm
      simp only [hk, if_false, ite_false]

/-- C8: running `calculate_all_rs` twice over the same dates with
unchanged price, sector-return, industry-return and settings inputs is
idempotent: the persisted `rs_scores` table after the second run equals
the table after the first run (the run's row computation reads only the
inputs, never the `rs_scores` table, and persistence is an upsert on the
natural key). -/
theorem calculate_all_rs_idempotent (inp : CalcInputs) (dates : List ℕ) (st : RSStore) :
    calculate_all_rs_run inp dates (calculate_all_rs_run inp dates st) =
      calculate_all_rs_run inp dates st := by
  funext k
  show save_rs_scores _ (save_rs_scores _ st) k = save_rs_scores _ st k
  rw [save_rs_scores_apply, save_rs_scores_apply]
  cases h : ((do_calculate_all_rs_rows inp dates).filter fun r => r.key = k).getLast? with
  | none => simp [h, save_rs_scores_apply]
  | some r => simp [h]

/-- C4 (amended): `submit_task` itself writes nothing to the persisted
`task_status` table — the Task row (status `running`) is created by the
submitted work function as its first store action once it begins
executing on the worker; a `get_task_status` lookup of the returned id
made after submission but before the work starts therefore returns
not-found. -/
theorem submit_task_row_created_by_worker :
    (∀ (tbl : TaskTable) (queue : List String) (fresh : String),
      (submit_task tbl queue fresh).2.1 = tbl) ∧
    (∀ (tbl : TaskTable) (queue : List String) (fresh : String),
      get_task_status tbl fresh = none →
        get_task_status (submit_task tbl queue fresh).2.1 fresh = none) ∧
    (∀ (tid : String) (oracle : ℕ → FetchOutcome),
      (do_fetch_ticker_data_status_ops tid oracle).head? = some (StatusOp.create tid)) ∧
    (∀ (tbl : TaskTable) (tid : String),
      get_task_status (apply_status_op tbl (StatusOp.create tid)) tid =
        some TStatus.running) := by
  refine ⟨fun _ _ _ => rfl, fun tbl queue fresh h => h, fun tid oracle => ?_, fun tbl tid => ?_⟩
  · unfold do_fetch_ticker_data_status_ops
    cases (fetch_with_retry oracle).2 <;> rfl
  · simp [apply_status_op, get_task_status, List.find?]

/-- C4 witness: at a concrete input all hypotheses discharge. -/
theorem submit_task_row_created_by_worker_witness :
    get_task_status ((submit_task ([] : TaskTable) [] "t1").2.1) "t1" = none :=
  submit_task_row_created_by_worker.2.1 [] [] "t1" (by decide)

/-- C4 counterexample to the claim as stated: immediately after
submission and before the work runs, the lookup of the returned task id
does NOT find a persisted row with status `running` — it finds nothing. -/
theorem submit_task_no_row_at_submission :
    ¬ (get_task_status ((submit_task ([] : TaskTable) [] "t1").2.1) "t1" =
        some TStatus.running) := by
  decide

/-- Unfolding equation: a successful call ends the retry loop. -/
theorem fetch_with_retry_from_ok (oracle : ℕ → FetchOutcome) (a : ℕ)
    (h : oracle a = FetchOutcome.ok) :
    fetch_with_retry_from oracle a = ([], FetchOutcome.ok) := by
  unfold fetch_with_retry_from
  rw [h]

/-- Unfolding equation: a failed call either retries (rate-limit error
before the final attempt, taking a backoff sleep of
`RETRY_DELAY * (attempt+1)`) or re-raises at once. -/
theorem fetch_with_retry_from_err (oracle : ℕ → FetchOutcome) (a : ℕ) (m : List Char)
    (h : oracle a = FetchOutcome.err m) :
    fetch_with_retry_from oracle a =
      if is_rate_limit_error m = true ∧ a < MAX_RETRIES - 1 then
        (RETRY_DELAY * (a + 1) :: (fetch_with_retry_from oracle (a + 1)).1,
          (fetch_with_retry_from oracle (a + 1)).2)
      else ([], FetchOutcome.err m) := by
  conv_lhs => unfold fetch_with_retry_from
  rw [h]
  dsimp only
  by_cases hc : is_rate_limit_error m = true ∧ a < MAX_RETRIES - 1
  · rw [dif_pos hc, if_pos hc]
  · rw [dif_neg hc, if_neg hc]

/-- At most `MAX_RETRIES - 1 - attempt` sleeps remain from any attempt. -/
theorem fetch_with_retry_from_len (oracle : ℕ → FetchOutcome) (a : ℕ) :
    (fetch_with_retry_from oracle a).1.length ≤ MAX_RETRIES - 1 - a := by
  cases h : oracle a with
  | ok => rw [fetch_with_retry_from_ok oracle a h]; simp
  | err m =>
    rw [fetch_with_retry_from_err oracle a m h]
    by_cases hc : is_rate_limit_error m = true ∧ a < MAX_RETRIES - 1
    · rw [if_pos hc]
      have hrec := fetch_with_retry_from_len oracle (a + 1)
      simp only [List.length_cons]
      omega
    · rw [if_neg hc]
      simp
termination_by MAX_RETRIES - 1 - a
decreasing_by omega

/-- C9: the fetch retry policy.  (1) A first-attempt error not classified
as rate limiting fails at once: no sleep, the task ends `failed`.
(2) Two rate-limit errors followed by a success retries with sleeps
`RETRY_DELAY*1` then `RETRY_DELAY*2` and the task ends `completed`, not
`failed`.  (3) Rate-limit errors on all three attempts exhaust the budget:
the third error is final and the task ends `failed`.  (4) In every case at
most `MAX_RETRIES = 3` calls are made to the external source. -/
theorem fetch_retry_policy (oracle : ℕ → FetchOutcome) :
    (∀ m, oracle 0 = FetchOutcome.err m → is_rate_limit_error m = false →
      fetch_with_retry oracle = ([], FetchOutcome.err m) ∧
        fetch_task_final_status oracle = TStatus.failed) ∧
    (∀ m0 m1, oracle 0 = FetchOutcome.err m0 → oracle 1 = FetchOutcome.err m1 →
      is_rate_limit_error m0 = true → is_rate_limit_error m1 = true →
      oracle 2 = FetchOutcome.ok →
      fetch_with_retry oracle = ([RETRY_DELAY * 1, RETRY_DELAY * 2], FetchOutcome.ok) ∧
        fetch_task_final_status oracle = TStatus.completed) ∧
    (∀ m0 m1 m2, oracle 0 = FetchOutcome.err m0 → oracle 1 = FetchOutcome.err m1 →
      oracle 2 = FetchOutcome.err m2 →
      is_rate_limit_error m0 = true → is_rate_limit_error m1 = true →
      fetch_with_retry oracle = ([RETRY_DELAY * 1, RETRY_DELAY * 2], FetchOutcome.err m2) ∧
        fetch_task_final_status oracle = TStatus.failed) ∧
    fetch_attempts oracle ≤ MAX_RETRIES := by
  refine ⟨?_, ?_, ?_, ?_⟩
  · intro m h0 hrate
    have hfr : fetch_with_retry oracle = ([], FetchOutcome.err m) := by
      unfold fetch_with_retry
      rw [fetch_with_retry_from_err oracle 0 m h0, if_neg]
      intro ⟨hr, _⟩
      rw [hrate] at hr
      exact Bool.false_ne_true hr
    exact ⟨hfr, by unfold fetch_task_final_status; rw [hfr]⟩
  · intro m0 m1 h0 h1 hr0 hr1 h2
    have hfr : fetch_with_retry oracle = ([RETRY_DELAY * 1, RETRY_DELAY * 2], FetchOutcome.ok) := by
      unfold fetch_with_retry
      rw [fetch_with_retry_from_err oracle 0 m0 h0,
        if_pos ⟨hr0, by norm_num [MAX_RETRIES]⟩,
        fetch_with_retry_from_err oracle 1 m1 h1,
        if_pos ⟨hr1, by norm_num [MAX_RETRIES]⟩,
        fetch_with_retry_from_ok oracle 2 h2]
    exact ⟨hfr, by unfold fetch_task_final_status; rw [hfr]⟩
  · intro m0 m1 m2 h0 h1 h2 hr0 hr1
    have hfr : fetch_with_retry oracle =
        ([RETRY_DELAY * 1, RETRY_DELAY * 2], FetchOutcome.err m2) := by
      unfold fetch_with_retry
      rw [fetch_with_retry_from_err oracle 0 m0 h0,
        if_pos ⟨hr0, by norm_num [MAX_RETRIES]⟩,
        fetch_with_retry_from_err oracle 1 m1 h1,
        if_pos ⟨hr1, by norm_num [MAX_RETRIES]⟩,
        fetch_with_retry_from_err oracle 2 m2 h2, if_neg]
      intro ⟨_, hlt⟩
      norm_num [MAX_RETRIES] at hlt
    exact ⟨hfr, by unfold fetch_task_final_status; rw [hfr]⟩
  · have hlen := fetch_with_retry_from_len oracle 0
    unfold fetch_attempts fetch_with_retry
    unfold MAX_RETRIES at hlen ⊢
    omega

/-- C9 witness: the concrete oracle failing twice with "Rate limit
exceeded" then succeeding retries with sleeps 2s and 4s and completes. -/
theorem fetch_retry_policy_witness :
    fetch_with_retry oracle_scenC9 = ([RETRY_DELAY * 1, RETRY_DELAY * 2], FetchOutcome.ok) ∧
      fetch_task_final_status oracle_scenC9 = TStatus.completed :=
  (fetch_retry_policy oracle_scenC9).2.1 "Rate limit exceeded".toList
    "Rate limit exceeded".toList (by decide) (by decide) (by decide) (by decide) (by decide)

/-- What `check_tasks_completed` decides: an empty id list passes; a
non-empty one passes iff some recorded id has a `task_status` row and
every row whose id is recorded has status `completed` (recorded ids
without a row count for nothing). -/
theorem check_tasks_completed_iff (tbl : TaskTable) (ids : List String) :
    check_tasks_completed tbl ids = true ↔ tasks_completed_spec tbl ids := by
  unfold check_tasks_completed tasks_completed_spec
  by_cases hids : ids = []
  · simp [hids]
  · rw [if_neg (by simpa using hids)]
    simp only [hids, false_or, Bool.and_eq_true, decide_eq_true_eq]
    constructor
    · rintro ⟨hpos, hlen⟩
      refine ⟨by simpa using List.length_pos.mp hpos, ?_⟩
      have hsub := List.filter_sublist
        (l := tbl.filter fun r => r.1 ∈ ids) (p := fun r => r.2 = TStatus.completed)
      have heq := hsub.eq_of_length hlen.symm
      intro r hr
      have := (List.filter_eq_self.mp heq) r hr
      simpa using this
    · rintro ⟨hne, hall⟩
      refine ⟨by simpa using List.length_pos.mpr hne, ?_⟩
      have : (tbl.filter fun r => r.1 ∈ ids).filter (fun r => r.2 = TStatus.completed) =
          tbl.filter fun r => r.1 ∈ ids := by
        rw [List.filter_eq_self]
        intro r hr
        simpa using hall r hr
      rw [this]

/-- C1 (amended): the status-query check advances a running batch out of
its stage iff `tasks_completed_spec` holds of the stage's recorded task
ids — i.e. iff every recorded id *that has a persisted `task_status` row*
is `completed` and at least one such row exists; recorded ids whose task
has not yet created its row (queued, not started) are ignored and do not
block advancement.  An empty id list advances immediately on the first
query.  When stage 1 advances, the recorded stage-2 ids are one per known
sector and per known industry, excluding falsy names and "Unknown". -/
theorem pipeline_stage_advancement (tbl : TaskTable) (sectors industries : List String)
    (gen : String → String) (rsid : String) (b : Batch)
    (hrun : b.status = BStatus.running) :
    (b.stage = 1 →
      (((check_and_advance_batch tbl sectors industries gen rsid b).stage = 2) ↔
        tasks_completed_spec tbl b.price_tasks)) ∧
    (b.stage = 1 → tasks_completed_spec tbl b.price_tasks →
      (check_and_advance_batch tbl sectors industries gen rsid b).return_tasks =
        (stage2_groups sectors industries).map gen) ∧
    (b.stage = 2 →
      (((check_and_advance_batch tbl sectors industries gen rsid b).stage = 3) ↔
        tasks_completed_spec tbl b.return_tasks)) ∧
    (∀ t, b.stage = 3 → b.rs_task = some t →
      (((check_and_advance_batch tbl sectors industries gen rsid b).status =
          BStatus.completed) ↔ tasks_completed_spec tbl [t])) := by
  refine ⟨?_, ?_, ?_, ?_⟩
  · intro h1
    unfold check_and_advance_batch
    rw [if_pos h1]
    by_cases hc : check_tasks_completed tbl b.price_tasks = true
    · simp only [hc, if_true]
      simpa using (check_tasks_completed_iff tbl b.price_tasks).mp hc
    · rw [if_neg hc]
      simp only [h1]
      constructor
      · omega
      · intro hspec
        exact absurd ((check_tasks_completed_iff tbl b.price_tasks).mpr hspec) hc
  · intro h1 hspec
    unfold check_and_advance_batch
    rw [if_pos h1, if_pos ((check_tasks_completed_iff tbl b.price_tasks).mpr hspec)]
  · intro h2
    unfold check_and_advance_batch
    rw [if_neg (by omega), if_pos h2]
    by_cases hc : check_tasks_completed tbl b.return_tasks = true
    · simp only [hc, if_true]
      simpa using (check_tasks_completed_iff tbl b.return_tasks).mp hc
    · rw [if_neg hc]
      simp only [h2]
      constructor
      · omega
      · intro hspec
        exact absurd ((check_tasks_completed_iff tbl b.return_tasks).mpr hspec) hc
  · intro t h3 ht
    unfold check_and_advance_batch
    rw [if_neg (by omega), if_neg (by omega), if_pos h3, ht]
    dsimp only
    by_cases hc : check_tasks_completed tbl [t] = true
    · simp only [hc, if_true]
      simpa using (check_tasks_completed_iff tbl [t]).mp hc
    · rw [if_neg hc]
      simp only [hrun]
      constructor
      · intro hco
        exact absurd hco (by simp)
      · intro hspec
        exact absurd ((check_tasks_completed_iff tbl [t]).mpr hspec) hc

/-- C1 witness: with both recorded fetch-task rows completed, the stage-1
batch advances to stage 2. -/
theorem pipeline_stage_advancement_witness :
    (check_and_advance_batch tblW_scenC1 [] [] (fun s => s) "rs" batch_scenC1).stage = 2 :=
  ((pipeline_stage_advancement tblW_scenC1 [] [] (fun s => s) "rs" batch_scenC1
    (by decide)).1 (by decide)).mpr
    ((check_tasks_completed_iff tblW_scenC1 batch_scenC1.price_tasks).mp (by decide))

/-- C1 counterexample to the claim as stated: task "b" is recorded but has
no `task_status` row yet (its work has not started, so it is certainly not
`completed`), task "a" is completed — yet the check advances the batch to
stage 2, so advancement is NOT equivalent to "all recorded tasks have
status completed". -/
theorem pipeline_stage_advancement_counterexample :
    ¬ (((check_and_advance_batch tbl_scenC1 [] [] (fun s => s) "rs" batch_scenC1).stage = 2) ↔
        claimC1_all_completed tbl_scenC1 batch_scenC1.price_tasks) := by
  intro h
  have hadv : (check_and_advance_batch tbl_scenC1 [] [] (fun s => s) "rs" batch_scenC1).stage = 2 := by
    decide
  have hall := h.mp hadv
  have hb := hall "b" (by decide)
  simp [get_task_status, tbl_scenC1, List.find?] at hb

/-- Replacing the rows of a date that is present yields that date's new
row on lookup. -/
theorem find_price_map_replace (l : List PriceRow) (p : PriceRow)
    (h : l.any (fun r => r.date = p.date) = true) :
    ((l.map fun r => if r.date = p.date then p else r).find? fun r => r.date = p.date) =
      some p := by
  induction l with
  | nil => simp at h
  | cons a as ih =>
    by_cases ha : a.date = p.date
    · rw [List.map_cons, if_pos ha, List.find?_cons_of_pos _ (by simp)]
    · rw [List.map_cons, if_neg ha, List.find?_cons_of_neg _ (by simp [ha])]
      apply ih
      simpa [ha] using h

/-- Replacing the rows of one date does not change the lookup at another
date. -/
theorem find_price_map_other (l : List PriceRow) (p : PriceRow) (d : ℕ)
    (hne : p.date ≠ d) :
    ((l.map fun r => if r.date = p.date then p else r).find? fun r => r.date = d) =
      l.find? fun r => r.date = d := by
  induction l with
  | nil => rfl
  | cons a as ih =>
    rw [List.map_cons]
    by_cases hap : a.date = p.date
    · rw [if_pos hap,
        List.find?_cons_of_neg _ (by simp [hne]),
        List.find?_cons_of_neg _ (by simp [hap ▸ hne]), ih]
    · rw [if_neg hap]
      by_cases ha : a.date = d
      · rw [List.find?_cons_of_pos _ (by simp [ha]), List.find?_cons_of_pos _ (by simp [ha])]
      · rw [List.find?_cons_of_neg _ (by simp [ha]), List.find?_cons_of_neg _ (by simp [ha]), ih]

/-- An upsert of a row dated differently does not change the lookup at a
date. -/
theorem find_price_step_other (acc : List PriceRow) (p : PriceRow) (d : ℕ)
    (hne : p.date ≠ d) :
    find_price (save_prices_step acc p) d = find_price acc d := by
  unfold save_prices_step
  by_cases hany : acc.any (fun r => r.date = p.date) = true
  · rw [if_pos hany]
    exact find_price_map_other acc p d hne
  · rw [if_neg hany]
    unfold find_price
    rw [List.find?_append]
    cases hfind : acc.find? fun r => r.date = d with
    | some r => simp
    | none => simp [List.find?, hne]

/-- Upserting rows none of which carries date `d` does not change the
lookup at `d`. -/
theorem find_price_save_other (ps : List PriceRow) (acc : List PriceRow) (d : ℕ)
    (h : ∀ p ∈ ps, p.date ≠ d) :
    find_price (save_prices acc ps) d = find_price acc d := by
  induction ps generalizing acc with
  | nil => rfl
  | cons p ps ih =>
    show find_price (save_prices (save_prices_step acc p) ps) d = _
    rw [ih (save_prices_step acc p) (fun q hq => h q (List.mem_cons_of_mem p hq)),
      find_price_step_other acc p d (h p (List.mem_cons_self p ps))]

/-- Shape of `_fetch_prices_from_yfinance` on a non-empty history: the
first produced row keeps the first raw row's date and adjusted close with
a `None` daily return; each later row's return is computed against the
previous raw row. -/
theorem fetch_prices_from_provider_cons (h0 : RawRow) (hs : List RawRow) :
    fetch_prices_from_provider (h0 :: hs) =
      PriceRow.mk h0.date h0.adjclose none ::
        (List.range hs.length).map (fun i =>
          let r := hs.getD i ⟨0, 0⟩
          let prev := ((h0 :: hs).getD i ⟨0, 0⟩).adjclose
          PriceRow.mk r.date r.adjclose
            (if prev = 0 then none
             else some (round6 ((r.adjclose - prev) / prev)))) := by
  unfold fetch_prices_from_provider
  rw [List.length_cons, List.range_succ_eq_map, List.map_cons, List.map_map]
  congr 1

/-- C10: for an existing symbol whose last cached price date is at least
one day old, the incremental fetch requests history starting at the last
cached date itself (not the day after); given the provider's first
returned row carries that same date, the upsert replaces the cached row
of that date, setting its `daily_return` to
`round((first_new_adjclose - last_cached_adjclose)/last_cached_adjclose, 6)`
— which is 0 whenever the provider returns the unchanged adjusted close —
discarding the previously stored return of that date. -/
theorem incremental_fetch_bridges (cached : List PriceRow) (today endDate : ℕ)
    (provider : ℕ → ℕ → List RawRow) (lastRow : PriceRow) (firstRaw : RawRow)
    (rest : List RawRow)
    (hlast : cached.getLast? = some lastRow)
    (hmax : get_last_price_date cached = some lastRow.date)
    (hadj : lastRow.adjclose ≠ 0)
    (hdiff : 1 ≤ today - lastRow.date)
    (hprov : provider lastRow.date endDate = firstRaw :: rest)
    (hfd : firstRaw.date = lastRow.date)
    (hrest : ∀ r ∈ rest, r.date ≠ lastRow.date) :
    incremental_fetch_start cached = some lastRow.date ∧
    find_price (incremental_fetch cached today endDate provider) lastRow.date =
      some ⟨lastRow.date, firstRaw.adjclose,
        some (round6 ((firstRaw.adjclose - lastRow.adjclose) / lastRow.adjclose))⟩ ∧
    (firstRaw.adjclose = lastRow.adjclose →
      find_price (incremental_fetch cached today endDate provider) lastRow.date =
        some ⟨lastRow.date, firstRaw.adjclose, some 0⟩) := by
  have hstart : incremental_fetch_start cached = some lastRow.date := hmax
  have hmem : lastRow ∈ cached := by
    obtain ⟨hne, heq⟩ := List.mem_getLast?_eq_getLast (Option.mem_def.mpr hlast)
    rw [heq]
    exact List.getLast_mem hne
  have hfetch : incremental_fetch cached today endDate provider =
      save_prices cached
        (bridge_daily_return cached (fetch_prices_from_provider (firstRaw :: rest))) := by
    unfold incremental_fetch
    rw [hmax]
    dsimp only
    rw [if_pos hdiff, hprov, if_neg]
    rw [fetch_prices_from_provider_cons]
    simp
  have hbridge : bridge_daily_return cached (fetch_prices_from_provider (firstRaw :: rest)) =
      PriceRow.mk firstRaw.date firstRaw.adjclose
          (some (round6 ((firstRaw.adjclose - lastRow.adjclose) / lastRow.adjclose))) ::
        (List.range rest.length).map (fun i =>
          let r := rest.getD i ⟨0, 0⟩
          let prev := ((firstRaw :: rest).getD i ⟨0, 0⟩).adjclose
          PriceRow.mk r.date r.adjclose
            (if prev = 0 then none
             else some (round6 ((r.adjclose - prev) / prev)))) := by
    rw [fetch_prices_from_provider_cons]
    unfold bridge_daily_return
    rw [hlast]
    dsimp only
    rw [if_pos hadj]
  have hps : ∀ q ∈ (List.range rest.length).map (fun i =>
      let r := rest.getD i ⟨0, 0⟩
      let prev := ((firstRaw :: rest).getD i ⟨0, 0⟩).adjclose
      PriceRow.mk r.date r.adjclose
        (if prev = 0 then none
         else some (round6 ((r.adjclose - prev) / prev)))), q.date ≠ lastRow.date := by
    intro q hq
    obtain ⟨i, hi, hqi⟩ := List.mem_map.mp hq
    have hilt : i < rest.length := List.mem_range.mp hi
    have : q.date = (rest.getD i ⟨0, 0⟩).date := by rw [← hqi]
    rw [this, List.getD_eq_getElem rest ⟨0, 0⟩ hilt]
    exact hrest rest[i] (List.getElem_mem hilt)
  have hlook : find_price (incremental_fetch cached today endDate provider) lastRow.date =
      some ⟨lastRow.date, firstRaw.adjclose,
        some (round6 ((firstRaw.adjclose - lastRow.adjclose) / lastRow.adjclose))⟩ := by
    rw [hfetch, hbridge]
    show find_price (save_prices (save_prices_step cached _) _) lastRow.date = _
    rw [find_price_save_other _ _ lastRow.date hps]
    unfold save_prices_step
    rw [if_pos (List.any_eq_true.mpr ⟨lastRow, hmem, by simp [hfd]⟩)]
    unfold find_price
    have := find_price_map_replace cached
      (PriceRow.mk firstRaw.date firstRaw.adjclose
        (some (round6 ((firstRaw.adjclose - lastRow.adjclose) / lastRow.adjclose))))
      (List.any_eq_true.mpr ⟨lastRow, hmem, by simp [hfd]⟩)
    rw [hfd] at this ⊢
    exact this
  refine ⟨hstart, hlook, fun heq => ?_⟩
  rw [hlook, heq]
  have : round6 ((lastRow.adjclose - lastRow.adjclose) / lastRow.adjclose) = 0 := by
    rw [sub_self, zero_div]
    norm_num [round6, pyRound0]
  rw [this]

/-- A trailing window over an index entirely at or before the target date
and within the lookback is the whole index. -/
theorem windowDates_of_all_le (idx : List ℕ) (lookback d : ℕ)
    (hall : ∀ x ∈ idx, x ≤ d) (hlen : idx.length ≤ lookback) :
    windowDates idx lookback d = idx := by
  unfold windowDates
  rw [List.filter_eq_self.mpr (fun x hx => by simpa using hall x hx)]
  show List.drop (idx.length - lookback) idx = idx
  rw [Nat.sub_eq_zero_of_le hlen, List.drop_zero]

/-- `getD` inside a replicate. -/
theorem getD_replicate_of_lt {α : Type} (n i : ℕ) (c : α) (dflt : α) (h : i < n) :
    (List.replicate n c).getD i dflt = c := by
  rw [List.getD_eq_getElem _ _ (by simpa using h), List.getElem_replicate]

/-- Every quarter bound ends within the window. -/
theorem quarterBounds_snd_le (n : ℕ) (p : ℕ × ℕ) (hp : p ∈ quarterBounds n) :
    p.2 ≤ n := by
  simp only [quarterBounds, List.mem_cons, List.not_mem_nil, or_false] at hp
  rcases hp with rfl | rfl | rfl | rfl <;> simp

/-- Quarterly returns of a constant daily-return window: each long-enough
quarter compounds to `(1+c)^len - 1`. -/
theorem quarterly_daily_replicate (n : ℕ) (c : ℚ) (h : 20 ≤ n) :
    calculate_quarterly_returns_from_daily_returns (List.replicate n (some c)) =
      (quarterBounds n).map fun p =>
        if p.2 ≤ p.1 ∨ p.2 - p.1 < 20 then 0 else (1 + c) ^ (p.2 - p.1) - 1 := by
  unfold calculate_quarterly_returns_from_daily_returns
  rw [List.length_replicate, if_neg (by omega), if_neg (by omega)]
  apply List.map_congr_left
  intro p hp
  by_cases hg : p.2 ≤ p.1 ∨ p.2 - p.1 < 20
  · rw [if_pos hg, if_pos hg]
  · rw [if_neg hg, if_neg hg]
    unfold returnsSegmentReturn
    have he := quarterBounds_snd_le n p hp
    rw [List.drop_replicate, List.take_replicate]
    have hmin : (p.2 - p.1) ⊓ (n - p.1) = p.2 - p.1 := by omega
    rw [hmin, List.map_replicate, List.prod_replicate]
    rfl

/-- Quarterly returns of a constant positive price window are all zero
(`last/first - 1 = 0`). -/
theorem quarterly_prices_replicate (n : ℕ) (c : ℚ) (h : 20 ≤ n) (hc : 0 < c) :
    calculate_quarterly_returns_from_prices (List.replicate n (some c)) =
      [0, 0, 0, 0] := by
  unfold calculate_quarterly_returns_from_prices
  rw [List.length_replicate, if_neg (by omega), if_neg (by omega)]
  have hmap : ∀ p ∈ quarterBounds n,
      (if p.2 ≤ p.1 ∨ p.2 - p.1 < 20 then (0:ℚ)
       else priceSegmentReturn (List.replicate n (some c)) p.1 p.2) = (fun _ => (0:ℚ)) p := by
    intro p hp
    by_cases hg : p.2 ≤ p.1 ∨ p.2 - p.1 < 20
    · rw [if_pos hg]
    · rw [if_neg hg]
      have he := quarterBounds_snd_le n p hp
      unfold priceSegmentReturn
      rw [getD_replicate_of_lt n p.1 _ _ (by omega),
        getD_replicate_of_lt n (p.2 - 1) _ _ (by omega)]
      dsimp only
      rw [if_pos hc, div_self (ne_of_gt hc), sub_self]
  rw [List.map_congr_left hmap]
  simp [quarterBounds]

/-- Components of a surviving triple of the validity filter. -/
theorem validTriples_mem_elim (names : List String) (weightedOf : String → ℚ)
    (benchWeighted : ℚ) (v : String × ℚ × ℚ)
    (h : v ∈ validTriples names weightedOf benchWeighted) :
    v.1 ∈ names ∧ v.2.2 = weightedOf v.1 ∧
      v.2.1 = rsScoreRaw (weightedOf v.1) benchWeighted ∧
      validScore v.2.1 = true := by
  obtain ⟨s, hs, heq⟩ := List.mem_filterMap.mp h
  by_cases hv : validScore (rsScoreRaw (weightedOf s) benchWeighted) = true
  · rw [if_pos hv] at heq
    obtain rfl := Option.some.inj heq
    exact ⟨hs, rfl, rfl, hv⟩
  · rw [if_neg hv] at heq
    exact absurd heq (by simp)

/-- Every assembled row comes from a surviving triple at some index, with
its percentile drawn from this date's percentile ranking at the same
index. -/
theorem mem_assembleRows_elim (etype : EntityType) (d : ℕ)
    (valids : List (String × ℚ × ℚ)) (r : RSRow) (h : r ∈ assembleRows etype d valids) :
    ∃ i, ∃ hi : i < valids.length,
      r = RSRow.mk etype (valids.getD i ("", 0, 0)).1 d
        (round2 (valids.getD i ("", 0, 0)).2.1)
        ((calculate_percentiles (valids.map fun v => v.2.1)).getD i 0)
        (round6 (valids.getD i ("", 0, 0)).2.2) := by
  obtain ⟨i, hlen, hget⟩ := List.mem_iff_getElem.mp h
  have hpl : (calculate_percentiles (valids.map fun v => v.2.1)).length = valids.length := by
    simp [calculate_percentiles]
  have hil : i < valids.length := by
    have := hlen
    unfold assembleRows at this
    rw [List.length_zipWith, hpl] at this
    omega
  refine ⟨i, hil, ?_⟩
  rw [← hget]
  unfold assembleRows
  rw [List.getElem_zipWith]
  rw [List.getD_eq_getElem valids _ hil,
    List.getD_eq_getElem _ _ (by rw [hpl]; exact hil)]

/-- Python `round(100.0, 2) = 100.0`. -/
theorem round2_100 : round2 100 = 100 := by
  unfold round2 pyRound0
  norm_num

/-- C5: the raw RS score is `(1+e)/(1+b)*100` whenever the benchmark
weighted return `b` exceeds -1, and exactly 100 when `b ≤ -1`; as a
consequence, on a date whose benchmark weighted return is ≤ -1, every
stored row of that date — stock, sector or industry — carries
`rs_score = 100.0` exactly. -/
theorem rs_score_benchmark_collapse :
    (∀ e b : ℚ, -1 < b → rsScoreRaw e b = (1 + e) / (1 + b) * 100) ∧
    (∀ e b : ℚ, b ≤ -1 → rsScoreRaw e b = 100) ∧
    (∀ (pm : SeriesMatrix) (bs : BenchSeries) (weights : List ℚ) (lookback minPoints d : ℕ),
      get_benchmark_quarterly_returns (benchWindowFor bs lookback d) weights ≤ -1 →
      ∀ r ∈ stockRowsForDate pm bs weights lookback minPoints d, r.rs_score = 100) ∧
    (∀ (etype : EntityType) (rm : SeriesMatrix) (bs : BenchSeries) (weights : List ℚ)
        (lookback minPoints d : ℕ),
      get_benchmark_quarterly_returns (benchWindowFor bs lookback d) weights ≤ -1 →
      ∀ r ∈ groupRowsForDate etype rm bs weights lookback minPoints d, r.rs_score = 100) := by
  have hscore : ∀ e b : ℚ, b ≤ -1 → rsScoreRaw e b = 100 := by
    intro e b hb
    unfold rsScoreRaw
    rw [if_neg (by linarith)]
  have hrows : ∀ (etype : EntityType) (d : ℕ) (names : List String)
      (weightedOf : String → ℚ) (bw : ℚ), bw ≤ -1 →
      ∀ r ∈ assembleRows etype d (validTriples names weightedOf bw), r.rs_score = 100 := by
    intro etype d names weightedOf bw hbw r hr
    obtain ⟨i, hi, hreq⟩ := mem_assembleRows_elim _ _ _ r hr
    have hv : (validTriples names weightedOf bw).getD i ("", 0, 0) ∈
        validTriples names weightedOf bw := by
      rw [List.getD_eq_getElem _ _ hi]
      exact List.getElem_mem hi
    obtain ⟨-, -, hs, -⟩ := validTriples_mem_elim _ _ _ _ hv
    rw [hreq]
    show round2 _ = 100
    rw [hs, hscore _ bw hbw, round2_100]
  refine ⟨?_, hscore, ?_, ?_⟩
  · intro e b hb
    unfold rsScoreRaw
    rw [if_pos hb]
  · intro pm bs weights lookback minPoints d hbw r hr
    unfold stockRowsForDate at hr
    by_cases h1 : (windowDates pm.dates lookback d).length <
        effectiveMinPoints minPoints pm.dates.length
    · rw [if_pos h1] at hr
      exact absurd hr (List.not_mem_nil r)
    · rw [if_neg h1] at hr
      by_cases h2 : (windowDates bs.dates lookback d).length <
          effectiveMinPoints minPoints pm.dates.length
      · rw [if_pos h2] at hr
        exact absurd hr (List.not_mem_nil r)
      · rw [if_neg h2] at hr
        exact hrows _ _ _ _ _ hbw r hr
  · intro etype rm bs weights lookback minPoints d hbw r hr
    unfold groupRowsForDate at hr
    by_cases h1 : (windowDates rm.dates lookback d).length < minPoints ∨
        (windowDates bs.dates lookback d).length < minPoints
    · rw [if_pos h1] at hr
      exact absurd hr (List.not_mem_nil r)
    · rw [if_neg h1] at hr
      exact hrows _ _ _ _ _ hbw r hr

/-- C5 witness: with constant benchmark daily returns of -2 over 130
days, the benchmark weighted return is -6/5 ≤ -1 and every stored sector
row of that date has `rs_score = 100`. -/
theorem rs_score_benchmark_collapse_witness :
    get_benchmark_quarterly_returns (benchWindowFor bench_scenC5 252 130)
        default_weight_array ≤ -1 ∧
    ∀ r ∈ groupRowsForDate EntityType.sector sm_scenC5 bench_scenC5
        default_weight_array 252 120 130, r.rs_score = 100 := by
  have hwin : windowDates dates130 252 130 = dates130 :=
    windowDates_of_all_le _ _ _
      (by
        intro x hx
        simp only [dates130, List.mem_map, List.mem_range] at hx
        obtain ⟨i, hi, rfl⟩ := hx
        omega)
      (by simp [dates130])
  have hlen : dates130.length = 130 := by simp [dates130]
  have hbw : benchWindowFor bench_scenC5 252 130 = List.replicate 130 (some (-2 : ℚ)) := by
    show (windowDates dates130 252 130).map (fun _ => some (-2 : ℚ)) = _
    rw [hwin, List.map_const' dates130, hlen]
  have hb : get_benchmark_quarterly_returns (benchWindowFor bench_scenC5 252 130)
      default_weight_array = -6/5 := by
    rw [hbw]
    unfold get_benchmark_quarterly_returns
    rw [quarterly_daily_replicate 130 (-2) (by norm_num)]
    norm_num [quarterBounds, dotProduct, default_weight_array]
  refine ⟨by rw [hb]; norm_num, ?_⟩
  exact rs_score_benchmark_collapse.2.2.2 EntityType.sector sm_scenC5 bench_scenC5
    default_weight_array 252 120 130 (by rw [hb]; norm_num)

/-- `getD` into the all-zero quarterly vector. -/
theorem zeros4_getD (q : ℕ) : ([0, 0, 0, 0] : List ℚ).getD q 0 = 0 := by
  rcases q with _ | _ | _ | _ | n <;> rfl

/-- `getD` through the map over the four quarter bounds. -/
theorem quarterBounds_map_getD (n q : ℕ) (hq : q < 4) (f : ℕ × ℕ → ℚ) :
    ((quarterBounds n).map f).getD q 0 = f ((quarterBounds n).getD q (0, 0)) := by
  rw [List.getD_eq_getElem _ _ (by simp [quarterBounds]; omega), List.getElem_map,
    List.getD_eq_getElem _ _ (by simp [quarterBounds]; omega)]

/-- The `q`-th quarter bound is `[n - 63*(q+1), n - 63*q)` — the source's
hard-coded list matches the spec's "from the end" description. -/
theorem quarterBounds_getD (n q : ℕ) (hq : q < 4) :
    (quarterBounds n).getD q (0, 0) = (n - 63 * (q + 1), n - 63 * q) := by
  interval_cases q <;> simp [quarterBounds, List.getD] <;> omega

/-- One price-based quarter of the source equals the spec's description of
that quarter's segment value, for any in-window bounds. -/
theorem price_segment_refines (w : List (Option ℚ)) (s e : ℕ) (hen : e ≤ w.length) :
    (if e ≤ s ∨ e - s < 20 then (0:ℚ) else priceSegmentReturn w s e) =
      spec_price_segment_value ((w.drop s).take (e - s)) := by
  have hlen : ((w.drop s).take (e - s)).length = (e - s) ⊓ (w.length - s) := by
    rw [List.length_take, List.length_drop]
  by_cases h20 : e - s < 20
  · rw [if_pos (Or.inr h20)]
    unfold spec_price_segment_value
    rw [if_pos (by rw [hlen]; omega)]
  · have hse : s < e := by omega
    rw [if_neg (by omega)]
    unfold spec_price_segment_value
    rw [if_neg (by rw [hlen]; omega)]
    have hhead : ((w.drop s).take (e - s)).head? = w[s]? := by
      have hh : ((w.drop s).take (e - s)).head? = (w.drop s).head? := by
        cases hd : w.drop s with
        | nil => simp
        | cons a as =>
          cases he2 : e - s with
          | zero => omega
          | succ k => simp
      rw [hh, List.head?_drop]
    have hlast : ((w.drop s).take (e - s)).getLast? = w[e - 1]? := by
      rw [List.getLast?_eq_getElem?, hlen]
      have hminv : (e - s) ⊓ (w.length - s) = e - s := by omega
      rw [hminv, List.getElem?_take, if_pos (by omega), List.getElem?_drop]
      congr 1
      omega
    rw [hhead, hlast]
    unfold priceSegmentReturn
    rw [List.getD_eq_getElem?_getD, List.getD_eq_getElem?_getD]
    cases w[s]? <;> cases w[e - 1]? <;> rfl

/-- One returns-based quarter of the source equals the spec's description
of that quarter's segment value, for any in-window bounds. -/
theorem returns_segment_refines (w : List (Option ℚ)) (s e : ℕ) (hen : e ≤ w.length) :
    (if e ≤ s ∨ e - s < 20 then (0:ℚ) else returnsSegmentReturn w s e) =
      spec_returns_segment_value ((w.drop s).take (e - s)) := by
  have hlen : ((w.drop s).take (e - s)).length = (e - s) ⊓ (w.length - s) := by
    rw [List.length_take, List.length_drop]
  by_cases h20 : e - s < 20
  · rw [if_pos (Or.inr h20)]
    unfold spec_returns_segment_value
    rw [if_pos (by rw [hlen]; omega)]
  · rw [if_neg (by omega)]
    unfold spec_returns_segment_value
    rw [if_neg (by rw [hlen]; omega)]
    rfl

/-- The source's price-quarter computation refines the spec's partition
description, quarter by quarter. -/
theorem quarterly_prices_refines (w : List (Option ℚ)) (q : ℕ) (hq : q < 4) :
    (calculate_quarterly_returns_from_prices w).getD q 0 =
      spec_quarterly_from_prices w q := by
  unfold calculate_quarterly_returns_from_prices spec_quarterly_from_prices specQuarterSegment
  by_cases h20 : w.length < 20
  · have hL : (if w.length = 0 then ([0,0,0,0] : List ℚ)
        else if w.length < 20 then [0,0,0,0]
        else (quarterBounds w.length).map fun p =>
          if p.2 ≤ p.1 ∨ p.2 - p.1 < 20 then 0
          else priceSegmentReturn w p.1 p.2) = [0,0,0,0] := by
      split_ifs <;> first | rfl | omega
    rw [hL, zeros4_getD]
    unfold spec_price_segment_value
    rw [if_pos (by rw [List.length_take, List.length_drop]; omega)]
  · rw [if_neg (by omega), if_neg h20,
      quarterBounds_map_getD w.length q hq, quarterBounds_getD w.length q hq]
    exact price_segment_refines w (w.length - 63 * (q + 1)) (w.length - 63 * q)
      (Nat.sub_le _ _)

/-- The source's returns-quarter computation refines the spec's partition
description, quarter by quarter. -/
theorem quarterly_returns_refines (w : List (Option ℚ)) (q : ℕ) (hq : q < 4) :
    (calculate_quarterly_returns_from_daily_returns w).getD q 0 =
      spec_quarterly_from_returns w q := by
  unfold calculate_quarterly_returns_from_daily_returns spec_quarterly_from_returns
    specQuarterSegment
  by_cases h20 : w.length < 20
  · have hL : (if w.length = 0 then ([0,0,0,0] : List ℚ)
        else if w.length < 20 then [0,0,0,0]
        else (quarterBounds w.length).map fun p =>
          if p.2 ≤ p.1 ∨ p.2 - p.1 < 20 then 0
          else returnsSegmentReturn w p.1 p.2) = [0,0,0,0] := by
      split_ifs <;> first | rfl | omega
    rw [hL, zeros4_getD]
    unfold spec_returns_segment_value
    rw [if_pos (by rw [List.length_take, List.length_drop]; omega)]
  · rw [if_neg (by omega), if_neg h20,
      quarterBounds_map_getD w.length q hq, quarterBounds_getD w.length q hq]
    exact returns_segment_refines w (w.length - 63 * (q + 1)) (w.length - 63 * q)
      (Nat.sub_le _ _)

/-- C6: for every trailing window, quarter `q` is the segment
`[0,63), [63,126), [126,189), [189,252)` counted from the window's end
and clipped to its length; a segment shorter than 20 observations
contributes exactly 0 (zeroed, not skipped); a price-based segment's
return is `last/first - 1` guarded to 0 on a zero/negative/NaN first (or
NaN last) price; a returns-based segment compounds `Π(1+r)-1` with NaNs
as 0 — the source computation equals the spec's description at every
quarter. -/
theorem quarterly_partition_spec (w : List (Option ℚ)) (q : ℕ) (hq : q < 4) :
    (calculate_quarterly_returns_from_prices w).getD q 0 =
        spec_quarterly_from_prices w q ∧
      (calculate_quarterly_returns_from_daily_returns w).getD q 0 =
        spec_quarterly_from_returns w q :=
  ⟨quarterly_prices_refines w q hq, quarterly_returns_refines w q hq⟩

/-- C6 witness: concrete 30-observation window, most recent quarter. -/
theorem quarterly_partition_spec_witness :
    (calculate_quarterly_returns_from_prices (List.replicate 30 (some 1))).getD 0 0 =
        spec_quarterly_from_prices (List.replicate 30 (some 1)) 0 ∧
      (calculate_quarterly_returns_from_daily_returns (List.replicate 30 (some 1))).getD 0 0 =
        spec_quarterly_from_returns (List.replicate 30 (some 1)) 0 :=
  quarterly_partition_spec (List.replicate 30 (some 1)) 0 (by norm_num)

/-- Round-half-even never undershoots the floor. -/
theorem le_pyRound0 (x : ℚ) : ⌊x⌋ ≤ pyRound0 x := by
  unfold pyRound0
  dsimp only
  split_ifs <;> omega

/-- Round-half-even never overshoots the floor by more than one. -/
theorem pyRound0_le (x : ℚ) : pyRound0 x ≤ ⌊x⌋ + 1 := by
  unfold pyRound0
  dsimp only
  split_ifs <;> omega

/-- Round-half-even is monotone. -/
theorem pyRound0_mono {x y : ℚ} (h : x ≤ y) : pyRound0 x ≤ pyRound0 y := by
  have hf : ⌊x⌋ ≤ ⌊y⌋ := Int.floor_le_floor h
  rcases lt_or_eq_of_le hf with hlt | heq
  · have h1 := pyRound0_le x
    have h2 := le_pyRound0 y
    omega
  · have hr : x - (⌊x⌋ : ℚ) ≤ y - (⌊y⌋ : ℚ) := by
      rw [← heq]
      linarith
    unfold pyRound0
    dsimp only
    rw [← heq]
    split_ifs <;> first | omega | linarith

/-- Python's `round(·, 2)` is monotone. -/
theorem round2_mono {x y : ℚ} (h : x ≤ y) : round2 x ≤ round2 y := by
  unfold round2
  have h1 := pyRound0_mono (mul_le_mul_of_nonneg_right h (by norm_num : (0:ℚ) ≤ 100))
  have h2 : ((pyRound0 (x * 100) : ℚ)) ≤ ((pyRound0 (y * 100) : ℚ)) := by exact_mod_cast h1
  linarith

/-- A strict inequality of rounded scores forces one of the raw scores. -/
theorem lt_of_round2_lt {x y : ℚ} (h : round2 x < round2 y) : x < y := by
  by_contra hc
  push_neg at hc
  exact absurd (round2_mono hc) (not_le.mpr h)

/-- Counting: entries `< s` and entries `= s` partition the entries `≤ s`. -/
theorem length_filter_lt_add_eq (s : ℚ) (l : List ℚ) :
    (l.filter fun x => x < s).length + (l.filter fun x => x = s).length =
      (l.filter fun x => x ≤ s).length := by
  induction l with
  | nil => rfl
  | cons a t ih =>
    simp only [List.filter_cons]
    by_cases h1 : a < s
    · rw [if_pos (by simpa using h1), if_neg (by simp [ne_of_lt h1]),
        if_pos (by simp [le_of_lt h1])]
      simp only [List.length_cons]
      omega
    · by_cases h2 : a = s
      · rw [if_neg (by simpa using h1), if_pos (by simpa using h2),
          if_pos (by simp [le_of_eq h2])]
        simp only [List.length_cons]
        omega
      · rw [if_neg (by simpa using h1), if_neg (by simpa using h2), if_neg (by
          simp only [decide_eq_true_eq]
          intro hle
          rcases lt_or_eq_of_le hle with h | h
          · exact h1 h
          · exact h2 h)]
        exact ih

/-- Counting is monotone under pointwise implication of the predicates. -/
theorem length_filter_implies (l : List ℚ) (p q : ℚ → Bool)
    (h : ∀ x ∈ l, p x = true → q x = true) :
    (l.filter p).length ≤ (l.filter q).length := by
  induction l with
  | nil => exact le_refl 0
  | cons a t ih =>
    have iht := ih fun x hx => h x (List.mem_cons_of_mem a hx)
    simp only [List.filter_cons]
    by_cases hp : p a = true
    · rw [if_pos hp, if_pos (h a (List.mem_cons_self a t) hp)]
      simpa using iht
    · rw [if_neg hp]
      split_ifs
      · exact le_trans iht (by simp)
      · exact iht

/-- Each score's tie class in its own list is non-empty. -/
theorem one_le_filter_eq (scores : List ℚ) (i : ℕ) (hi : i < scores.length) :
    1 ≤ (scores.filter fun x => x = scores.getD i 0).length := by
  have hmem : scores.getD i 0 ∈ scores := by
    rw [List.getD_eq_getElem _ _ hi]
    exact List.getElem_mem hi
  have hmf : scores.getD i 0 ∈ scores.filter (fun x => x = scores.getD i 0) :=
    List.mem_filter.mpr ⟨hmem, by simp⟩
  exact List.length_pos.mpr (List.ne_nil_of_mem hmf)

/-- The average percentage rank is positive. -/
theorem avgRankPct_pos (scores : List ℚ) (i : ℕ) (hi : i < scores.length) :
    0 < avgRankPct scores i := by
  unfold avgRankPct
  have h1 := one_le_filter_eq scores i hi
  have hn : (0:ℚ) < scores.length := by
    have : 0 < scores.length := by omega
    exact_mod_cast this
  apply div_pos _ hn
  have hc : (1:ℚ) ≤ ((scores.filter fun x => x = scores.getD i 0).length : ℚ) := by
    exact_mod_cast h1
  positivity

/-- The average percentage rank never exceeds one. -/
theorem avgRankPct_le_one (scores : List ℚ) (i : ℕ) (hi : i < scores.length) :
    avgRankPct scores i ≤ 1 := by
  unfold avgRankPct
  have hn : (0:ℚ) < scores.length := by
    have : 0 < scores.length := by omega
    exact_mod_cast this
  rw [div_le_one hn]
  have hpart := length_filter_lt_add_eq (scores.getD i 0) scores
  have hle := List.length_filter_le (fun x => decide (x ≤ scores.getD i 0)) scores
  have h1 := one_le_filter_eq scores i hi
  have hcast : ((scores.filter fun x => x < scores.getD i 0).length : ℚ) +
      ((scores.filter fun x => x = scores.getD i 0).length : ℚ) ≤ (scores.length : ℚ) := by
    exact_mod_cast le_trans (le_of_eq hpart) hle
  have h1q : (1:ℚ) ≤ ((scores.filter fun x => x = scores.getD i 0).length : ℚ) := by
    exact_mod_cast h1
  linarith

/-- Strictly larger scores get strictly larger average ranks. -/
theorem avgRankPct_mono (scores : List ℚ) (i j : ℕ) (hi : i < scores.length)
    (hj : j < scores.length) (hlt : scores.getD j 0 < scores.getD i 0) :
    avgRankPct scores j ≤ avgRankPct scores i := by
  unfold avgRankPct
  have hn : (0:ℚ) < scores.length := by
    have : 0 < scores.length := by omega
    exact_mod_cast this
  have hsub : (scores.filter fun x => x ≤ scores.getD j 0).length ≤
      (scores.filter fun x => x < scores.getD i 0).length := by
    apply length_filter_implies
    intro x _ hx
    simp only [decide_eq_true_eq] at hx ⊢
    exact lt_of_le_of_lt hx hlt
  have hpart := length_filter_lt_add_eq (scores.getD j 0) scores
  have h1j := one_le_filter_eq scores j hj
  have h1i := one_le_filter_eq scores i hi
  have hkey : ((scores.filter fun x => x < scores.getD j 0).length : ℚ) +
        (((scores.filter fun x => x = scores.getD j 0).length : ℚ) + 1) / 2 ≤
      ((scores.filter fun x => x < scores.getD i 0).length : ℚ) +
        (((scores.filter fun x => x = scores.getD i 0).length : ℚ) + 1) / 2 := by
    have hL : ((scores.filter fun x => x < scores.getD j 0).length : ℚ) +
        ((scores.filter fun x => x = scores.getD j 0).length : ℚ) ≤
        ((scores.filter fun x => x < scores.getD i 0).length : ℚ) := by
      exact_mod_cast le_trans (le_of_eq hpart) hsub
    have h1jq : (1:ℚ) ≤ ((scores.filter fun x => x = scores.getD j 0).length : ℚ) := by
      exact_mod_cast h1j
    have h1iq : (1:ℚ) ≤ ((scores.filter fun x => x = scores.getD i 0).length : ℚ) := by
      exact_mod_cast h1i
    linarith
  dsimp only
  exact div_le_div_of_nonneg_right hkey hn.le

/-- The `i`-th computed percentile. -/
theorem calculate_percentiles_getD (scores : List ℚ) (i : ℕ) (hi : i < scores.length) :
    (calculate_percentiles scores).getD i 0 = ⌊avgRankPct scores i * 100⌋ := by
  rw [List.getD_eq_getElem?_getD]
  unfold calculate_percentiles
  rw [List.getElem?_map, List.getElem?_range hi]
  rfl

/-- Scores list of the surviving triples, at one index. -/
theorem valids_score_getD (valids : List (String × ℚ × ℚ)) (i : ℕ)
    (hi : i < valids.length) :
    (valids.map fun v => v.2.1).getD i 0 = (valids.getD i ("", 0, 0)).2.1 := by
  rw [List.getD_eq_getElem _ _ (by simpa using hi), List.getElem_map,
    List.getD_eq_getElem _ _ hi]

set_option maxHeartbeats 1000000 in
/-- Percentiles of assembled rows are monotone in the stored score. -/
theorem assembleRows_percentile_mono (etype : EntityType) (d : ℕ)
    (valids : List (String × ℚ × ℚ)) (r1 r2 : RSRow)
    (h1 : r1 ∈ assembleRows etype d valids) (h2 : r2 ∈ assembleRows etype d valids)
    (hlt : r2.rs_score < r1.rs_score) : r2.percentile ≤ r1.percentile := by
  obtain ⟨i, hi, hr1⟩ := mem_assembleRows_elim etype d valids r1 h1
  obtain ⟨j, hj, hr2⟩ := mem_assembleRows_elim etype d valids r2 h2
  have hleni : i < (valids.map fun v => v.2.1).length := by simpa using hi
  have hlenj : j < (valids.map fun v => v.2.1).length := by simpa using hj
  rw [hr1, hr2] at hlt
  rw [hr1, hr2]
  show (calculate_percentiles (valids.map fun v => v.2.1)).getD j 0 ≤
    (calculate_percentiles (valids.map fun v => v.2.1)).getD i 0
  rw [calculate_percentiles_getD _ i hleni, calculate_percentiles_getD _ j hlenj]
  apply Int.floor_le_floor
  have hraw : (valids.map fun v => v.2.1).getD j 0 < (valids.map fun v => v.2.1).getD i 0 := by
    rw [valids_score_getD _ i hi, valids_score_getD _ j hj]
    exact lt_of_round2_lt hlt
  have hm := avgRankPct_mono (valids.map fun v => v.2.1) i j hleni hlenj hraw
  exact mul_le_mul_of_nonneg_right hm (by norm_num)

/-- Percentiles of assembled rows lie in 0–100. -/
theorem assembleRows_percentile_bounds (etype : EntityType) (d : ℕ)
    (valids : List (String × ℚ × ℚ)) (r : RSRow) (h : r ∈ assembleRows etype d valids) :
    0 ≤ r.percentile ∧ r.percentile ≤ 100 := by
  obtain ⟨i, hi, hr⟩ := mem_assembleRows_elim etype d valids r h
  have hleni : i < (valids.map fun v => v.2.1).length := by simpa using hi
  rw [hr]
  show 0 ≤ (calculate_percentiles (valids.map fun v => v.2.1)).getD i 0 ∧
    (calculate_percentiles (valids.map fun v => v.2.1)).getD i 0 ≤ 100
  rw [calculate_percentiles_getD _ i hleni]
  constructor
  · apply Int.floor_nonneg.mpr
    have := avgRankPct_pos (valids.map fun v => v.2.1) i hleni
    positivity
  · have hle := avgRankPct_le_one (valids.map fun v => v.2.1) i hleni
    have : avgRankPct (valids.map fun v => v.2.1) i * 100 ≤ 100 := by nlinarith
    calc ⌊avgRankPct (valids.map fun v => v.2.1) i * 100⌋ ≤ ⌊(100:ℚ)⌋ :=
          Int.floor_le_floor this
      _ = 100 := by norm_num

/-- C7: percentiles are cross-sectional — computed per call over the valid
scores of one entity class on one date only, as the rank-percentage times
100 floored to an integer in 0–100 — and monotone with the stored score:
among the rows a date's computation stores, a strictly larger `rs_score`
never receives a smaller percentile. -/
theorem percentile_cross_sectional_monotone :
    (∀ (pm : SeriesMatrix) (bs : BenchSeries) (weights : List ℚ)
        (lookback minPoints d : ℕ) (r1 r2 : RSRow),
      r1 ∈ stockRowsForDate pm bs weights lookback minPoints d →
      r2 ∈ stockRowsForDate pm bs weights lookback minPoints d →
      r2.rs_score < r1.rs_score → r2.percentile ≤ r1.percentile) ∧
    (∀ (etype : EntityType) (rm : SeriesMatrix) (bs : BenchSeries) (weights : List ℚ)
        (lookback minPoints d : ℕ) (r1 r2 : RSRow),
      r1 ∈ groupRowsForDate etype rm bs weights lookback minPoints d →
      r2 ∈ groupRowsForDate etype rm bs weights lookback minPoints d →
      r2.rs_score < r1.rs_score → r2.percentile ≤ r1.percentile) ∧
    (∀ (pm : SeriesMatrix) (bs : BenchSeries) (weights : List ℚ)
        (lookback minPoints d : ℕ) (r : RSRow),
      r ∈ stockRowsForDate pm bs weights lookback minPoints d →
      0 ≤ r.percentile ∧ r.percentile ≤ 100) ∧
    (∀ (etype : EntityType) (rm : SeriesMatrix) (bs : BenchSeries) (weights : List ℚ)
        (lookback minPoints d : ℕ) (r : RSRow),
      r ∈ groupRowsForDate etype rm bs weights lookback minPoints d →
      0 ≤ r.percentile ∧ r.percentile ≤ 100) := by
  have hstock : ∀ (pm : SeriesMatrix) (bs : BenchSeries) (weights : List ℚ)
      (lookback minPoints d : ℕ) (r : RSRow),
      r ∈ stockRowsForDate pm bs weights lookback minPoints d →
      r ∈ assembleRows .stock d
        (validTriples pm.symbols (stockWeightedReturn pm weights lookback d)
          (get_benchmark_quarterly_returns (benchWindowFor bs lookback d) weights)) := by
    intro pm bs weights lookback minPoints d r hr
    unfold stockRowsForDate at hr
    dsimp only at hr
    split_ifs at hr with h1 h2
    · exact absurd hr (List.not_mem_nil r)
    · exact absurd hr (List.not_mem_nil r)
    · exact hr
  have hgroup : ∀ (etype : EntityType) (rm : SeriesMatrix) (bs : BenchSeries)
      (weights : List ℚ) (lookback minPoints d : ℕ) (r : RSRow),
      r ∈ groupRowsForDate etype rm bs weights lookback minPoints d →
      r ∈ assembleRows etype d
        (validTriples rm.symbols (groupWeightedReturn rm weights lookback d)
          (get_benchmark_quarterly_returns (benchWindowFor bs lookback d) weights)) := by
    intro etype rm bs weights lookback minPoints d r hr
    unfold groupRowsForDate at hr
    split_ifs at hr with h1
    · exact absurd hr (List.not_mem_nil r)
    · exact hr
  refine ⟨?_, ?_, ?_, ?_⟩
  · intro pm bs weights lookback minPoints d r1 r2 h1 h2 hlt
    exact assembleRows_percentile_mono _ _ _ r1 r2
      (hstock pm bs weights lookback minPoints d r1 h1)
      (hstock pm bs weights lookback minPoints d r2 h2) hlt
  · intro etype rm bs weights lookback minPoints d r1 r2 h1 h2 hlt
    exact assembleRows_percentile_mono _ _ _ r1 r2
      (hgroup etype rm bs weights lookback minPoints d r1 h1)
      (hgroup etype rm bs weights lookback minPoints d r2 h2) hlt
  · intro pm bs weights lookback minPoints d r hr
    exact assembleRows_percentile_bounds _ _ _ r
      (hstock pm bs weights lookback minPoints d r hr)
  · intro etype rm bs weights lookback minPoints d r hr
    exact assembleRows_percentile_bounds _ _ _ r
      (hgroup etype rm bs weights lookback minPoints d r hr)

/-- `validScore` spelled out. -/
theorem validScore_true_iff (s : ℚ) : validScore s = true ↔ (10 ≤ s ∧ s ≤ 500) := by
  unfold validScore
  simp

/-- Zero weighted returns against a zero benchmark score exactly 100. -/
theorem rsScoreRaw_zero_zero : rsScoreRaw 0 0 = 100 := by
  unfold rsScoreRaw
  norm_num

/-- The benchmark weighted return of a constant-zero daily-return window
of at least 20 observations vanishes. -/
theorem bench_weighted_zero_returns (n : ℕ) (h : 20 ≤ n) :
    get_benchmark_quarterly_returns (List.replicate n (some 0)) default_weight_array = 0 := by
  unfold get_benchmark_quarterly_returns
  rw [quarterly_daily_replicate n 0 h]
  have hz : ∀ p ∈ quarterBounds n,
      (if p.2 ≤ p.1 ∨ p.2 - p.1 < 20 then (0:ℚ) else (1 + 0) ^ (p.2 - p.1) - 1) =
        (fun _ => (0:ℚ)) p := by
    intro p _
    split_ifs
    · rfl
    · norm_num
  rw [List.map_congr_left hz]
  norm_num [quarterBounds, dotProduct, default_weight_array]

/-- The C7 scenario's window is the full 20-day index. -/
theorem windowDates_scenC7 : windowDates dates20 252 20 = dates20 :=
  windowDates_of_all_le _ _ _
    (by
      intro x hx
      simp only [dates20, List.mem_map, List.mem_range] at hx
      obtain ⟨i, hi, rfl⟩ := hx
      omega)
    (by simp [dates20])

/-- The C7 scenario evaluates to exactly two rows: sector "A" scores 100
at percentile 100, sector "B" scores 60 at percentile 50. -/
theorem groupRowsForDate_scenC7_eval :
    groupRowsForDate EntityType.sector sm_scenC7 bench_scenC7 default_weight_array 252 20 20 =
      [⟨EntityType.sector, "A", 20, 100, 100, 0⟩,
       ⟨EntityType.sector, "B", 20, 60, 50, -2/5⟩] := by
  have hlen20 : dates20.length = 20 := by simp [dates20]
  have hbwin : benchWindowFor bench_scenC7 252 20 = List.replicate 20 (some (0:ℚ)) := by
    show (windowDates dates20 252 20).map (fun _ => some (0:ℚ)) = _
    rw [windowDates_scenC7, List.map_const' dates20, hlen20]
  have hbw : get_benchmark_quarterly_returns (benchWindowFor bench_scenC7 252 20)
      default_weight_array = 0 := by
    rw [hbwin]
    exact bench_weighted_zero_returns 20 (le_refl 20)
  have hcolA : entityWindow sm_scenC7 252 20 "A" = List.replicate 20 (some (0:ℚ)) := by
    show (windowDates dates20 252 20).map (fun t => sm_scenC7.entry t "A") = _
    have : (fun t => sm_scenC7.entry t "A") = fun _ => some (0:ℚ) := by
      funext t
      show (if ("A" : String) = "A" then some (0:ℚ) else some (-1)) = some 0
      rw [if_pos rfl]
    rw [this, windowDates_scenC7, List.map_const' dates20, hlen20]
  have hcolB : entityWindow sm_scenC7 252 20 "B" = List.replicate 20 (some (-1:ℚ)) := by
    show (windowDates dates20 252 20).map (fun t => sm_scenC7.entry t "B") = _
    have : (fun t => sm_scenC7.entry t "B") = fun _ => some (-1:ℚ) := by
      funext t
      show (if ("B" : String) = "A" then some (0:ℚ) else some (-1)) = some (-1)
      rw [if_neg (by decide)]
    rw [this, windowDates_scenC7, List.map_const' dates20, hlen20]
  have hA : groupWeightedReturn sm_scenC7 default_weight_array 252 20 "A" = 0 := by
    unfold groupWeightedReturn
    rw [hcolA]
    exact bench_weighted_zero_returns 20 (le_refl 20)
  have hB : groupWeightedReturn sm_scenC7 default_weight_array 252 20 "B" = -2/5 := by
    unfold groupWeightedReturn
    rw [hcolB, quarterly_daily_replicate 20 (-1) (le_refl 20)]
    norm_num [quarterBounds, dotProduct, default_weight_array]
  unfold groupRowsForDate
  rw [if_neg (by
    show ¬((windowDates sm_scenC7.dates 252 20).length < 20 ∨
      (windowDates bench_scenC7.dates 252 20).length < 20)
    show ¬((windowDates dates20 252 20).length < 20 ∨ (windowDates dates20 252 20).length < 20)
    rw [windowDates_scenC7, hlen20]
    omega)]
  have hvalids : validTriples sm_scenC7.symbols
      (groupWeightedReturn sm_scenC7 default_weight_array 252 20)
      (get_benchmark_quarterly_returns (benchWindowFor bench_scenC7 252 20)
        default_weight_array) = [("A", 100, 0), ("B", 60, -2/5)] := by
    show validTriples ["A", "B"] _ _ = _
    unfold validTriples
    rw [List.filterMap_cons, List.filterMap_cons, List.filterMap_nil]
    rw [hbw, hA, hB]
    dsimp only
    rw [rsScoreRaw_zero_zero]
    have hs60 : rsScoreRaw (-2/5) 0 = 60 := by
      unfold rsScoreRaw
      norm_num
    rw [hs60, if_pos ((validScore_true_iff 100).mpr (by norm_num)),
      if_pos ((validScore_true_iff 60).mpr (by norm_num))]
  rw [hvalids]
  unfold assembleRows calculate_percentiles
  have hscores : ([("A", (100:ℚ), (0:ℚ)), ("B", 60, -2/5)].map fun v => v.2.1) = [100, 60] := by
    rfl
  rw [hscores]
  have hp0 : avgRankPct [100, 60] 0 * 100 = 100 := by
    unfold avgRankPct
    norm_num [List.filter_cons, List.filter_nil, List.getD, decide_eq_true_eq]
  have hp1 : avgRankPct [100, 60] 1 * 100 = 50 := by
    unfold avgRankPct
    norm_num [List.filter_cons, List.filter_nil, List.getD, decide_eq_true_eq]
  show List.zipWith _ _ ([⌊avgRankPct [100, 60] 0 * 100⌋, ⌊avgRankPct [100, 60] 1 * 100⌋]) = _
  rw [hp0, hp1]
  show [RSRow.mk EntityType.sector "A" 20 (round2 100) ⌊(100:ℚ)⌋ (round6 0),
        RSRow.mk EntityType.sector "B" 20 (round2 60) ⌊(50:ℚ)⌋ (round6 (-2/5))] = _
  rw [round2_100]
  have h60 : round2 60 = 60 := by
    unfold round2 pyRound0
    norm_num
  have hr0 : round6 0 = 0 := by
    unfold round6 pyRound0
    norm_num
  have hr25 : round6 (-2/5) = -2/5 := by
    unfold round6 pyRound0
    norm_num
  rw [h60, hr0, hr25]
  norm_num

/-- C7 witness: in the concrete two-sector scenario, the lower-scored
row's percentile (50) does not exceed the higher-scored row's (100). -/
theorem percentile_cross_sectional_monotone_witness :
    (RSRow.mk EntityType.sector "B" 20 60 50 (-2/5)).percentile ≤
      (RSRow.mk EntityType.sector "A" 20 100 100 0).percentile :=
  percentile_cross_sectional_monotone.2.1 EntityType.sector sm_scenC7 bench_scenC7
    default_weight_array 252 20 20
    (RSRow.mk EntityType.sector "A" 20 100 100 0)
    (RSRow.mk EntityType.sector "B" 20 60 50 (-2/5))
    (by rw [groupRowsForDate_scenC7_eval]; simp)
    (by rw [groupRowsForDate_scenC7_eval]; simp)
    (by norm_num)

/-- Every assembled row carries the date it was computed for. -/
theorem assembleRows_date (etype : EntityType) (d : ℕ)
    (valids : List (String × ℚ × ℚ)) (r : RSRow) (h : r ∈ assembleRows etype d valids) :
    r.date = d := by
  obtain ⟨i, hi, hr⟩ := mem_assembleRows_elim etype d valids r h
  rw [hr]

/-- A name appears among the assembled rows iff it appears among the
surviving triples. -/
theorem assembleRows_name_iff (etype : EntityType) (d : ℕ)
    (valids : List (String × ℚ × ℚ)) (s : String) :
    (∃ r ∈ assembleRows etype d valids, r.entity_name = s) ↔
      (∃ v ∈ valids, v.1 = s) := by
  constructor
  · rintro ⟨r, hr, hname⟩
    obtain ⟨i, hi, hreq⟩ := mem_assembleRows_elim etype d valids r hr
    refine ⟨valids.getD i ("", 0, 0), ?_, ?_⟩
    · rw [List.getD_eq_getElem _ _ hi]
      exact List.getElem_mem hi
    · rw [hreq] at hname
      exact hname
  · rintro ⟨v, hv, hname⟩
    obtain ⟨i, hi, hvi⟩ := List.mem_iff_getElem.mp hv
    have hpl : (calculate_percentiles (valids.map fun w => w.2.1)).length = valids.length := by
      simp [calculate_percentiles]
    have hzl : i < (assembleRows etype d valids).length := by
      unfold assembleRows
      rw [List.length_zipWith, hpl]
      omega
    refine ⟨(assembleRows etype d valids).get ⟨i, hzl⟩, List.get_mem _ _ hzl, ?_⟩
    show (assembleRows etype d valids)[i].entity_name = s
    unfold assembleRows
    rw [List.getElem_zipWith]
    rw [show valids[i] = v from hvi]
    exact hname

/-- A name survives the validity filter iff it is a known entity whose
raw score passes the filter. -/
theorem validTriples_name_iff (names : List String) (weightedOf : String → ℚ)
    (benchWeighted : ℚ) (s : String) :
    (∃ v ∈ validTriples names weightedOf benchWeighted, v.1 = s) ↔
      (s ∈ names ∧ validScore (rsScoreRaw (weightedOf s) benchWeighted) = true) := by
  constructor
  · rintro ⟨v, hv, hname⟩
    obtain ⟨hn, -, hscore, hvalid⟩ := validTriples_mem_elim names weightedOf benchWeighted v hv
    rw [hname] at hn
    rw [hscore, hname] at hvalid
    exact ⟨hn, hvalid⟩
  · rintro ⟨hn, hvalid⟩
    refine ⟨(s, rsScoreRaw (weightedOf s) benchWeighted, weightedOf s),
      List.mem_filterMap.mpr ⟨s, hn, ?_⟩, rfl⟩
    dsimp only
    rw [if_pos hvalid]

/-- Rows a stock date contributes all bear that date. -/
theorem stockRowsForDate_date (pm : SeriesMatrix) (bs : BenchSeries) (weights : List ℚ)
    (lookback minPoints d : ℕ) (r : RSRow)
    (h : r ∈ stockRowsForDate pm bs weights lookback minPoints d) : r.date = d := by
  unfold stockRowsForDate at h
  dsimp only at h
  split_ifs at h with h1 h2
  · exact absurd h (List.not_mem_nil r)
  · exact absurd h (List.not_mem_nil r)
  · exact assembleRows_date _ _ _ r h

/-- Rows a sector/industry date contributes all bear that date. -/
theorem groupRowsForDate_date (etype : EntityType) (rm : SeriesMatrix) (bs : BenchSeries)
    (weights : List ℚ) (lookback minPoints d : ℕ) (r : RSRow)
    (h : r ∈ groupRowsForDate etype rm bs weights lookback minPoints d) : r.date = d := by
  unfold groupRowsForDate at h
  split_ifs at h with h1
  · exact absurd h (List.not_mem_nil r)
  · exact assembleRows_date _ _ _ r h

/-- Per-date row existence for the stock class: guarded by the effective
minimum-points threshold on both windows. -/
theorem stockRowsForDate_name_iff (pm : SeriesMatrix) (bs : BenchSeries)
    (weights : List ℚ) (lookback minPoints d : ℕ) (s : String) :
    (∃ r ∈ stockRowsForDate pm bs weights lookback minPoints d, r.entity_name = s) ↔
      (effectiveMinPoints minPoints pm.dates.length ≤ (windowDates pm.dates lookback d).length ∧
       effectiveMinPoints minPoints pm.dates.length ≤ (windowDates bs.dates lookback d).length ∧
       s ∈ pm.symbols ∧
       validScore (rsScoreRaw (stockWeightedReturn pm weights lookback d s)
         (get_benchmark_quarterly_returns (benchWindowFor bs lookback d) weights)) = true) := by
  unfold stockRowsForDate
  dsimp only
  split_ifs with h1 h2
  · simp only [List.not_mem_nil, false_and, exists_false, false_iff]
    omega
  · simp only [List.not_mem_nil, false_and, exists_false, false_iff]
    omega
  · rw [assembleRows_name_iff, validTriples_name_iff]
    constructor
    · rintro ⟨hn, hv⟩
      exact ⟨by omega, by omega, hn, hv⟩
    · rintro ⟨-, -, hn, hv⟩
      exact ⟨hn, hv⟩

/-- Per-date row existence for the sector/industry classes: guarded by
the configured `min_points` directly. -/
theorem groupRowsForDate_name_iff (etype : EntityType) (rm : SeriesMatrix)
    (bs : BenchSeries) (weights : List ℚ) (lookback minPoints d : ℕ) (s : String) :
    (∃ r ∈ groupRowsForDate etype rm bs weights lookback minPoints d, r.entity_name = s) ↔
      (minPoints ≤ (windowDates rm.dates lookback d).length ∧
       minPoints ≤ (windowDates bs.dates lookback d).length ∧
       s ∈ rm.symbols ∧
       validScore (rsScoreRaw (groupWeightedReturn rm weights lookback d s)
         (get_benchmark_quarterly_returns (benchWindowFor bs lookback d) weights)) = true) := by
  unfold groupRowsForDate
  split_ifs with h1
  · simp only [List.not_mem_nil, false_and, exists_false, false_iff]
    omega
  · rw [assembleRows_name_iff, validTriples_name_iff]
    constructor
    · rintro ⟨hn, hv⟩
      exact ⟨by omega, by omega, hn, hv⟩
    · rintro ⟨-, -, hn, hv⟩
      exact ⟨hn, hv⟩

/-- Run-level row existence for stocks: a row for `(s, d)` exists iff `d`
is a target date and the per-date computation yields `s`. -/
theorem do_calculate_stock_rs_row_iff (pm : SeriesMatrix) (bs : BenchSeries)
    (weights : List ℚ) (lookback minPoints : ℕ) (dates : List ℕ) (s : String) (d : ℕ) :
    (∃ r ∈ do_calculate_stock_rs pm bs weights lookback minPoints dates,
        r.entity_name = s ∧ r.date = d) ↔
      (d ∈ dates ∧
        ∃ r ∈ stockRowsForDate pm bs weights lookback minPoints d, r.entity_name = s) := by
  unfold do_calculate_stock_rs
  constructor
  · rintro ⟨r, hr, hname, hdate⟩
    obtain ⟨a, ha, hra⟩ := List.mem_flatMap.mp hr
    have had : a = d := by
      rw [← hdate, stockRowsForDate_date pm bs weights lookback minPoints a r hra]
    subst had
    exact ⟨(List.perm_insertionSort (· ≤ ·) dates).mem_iff.mp ha, r, hra, hname⟩
  · rintro ⟨hd, r, hr, hname⟩
    exact ⟨r,
      List.mem_flatMap.mpr ⟨d, (List.perm_insertionSort (· ≤ ·) dates).mem_iff.mpr hd, hr⟩,
      hname, stockRowsForDate_date pm bs weights lookback minPoints d r hr⟩

/-- Run-level row existence for a sector/industry per-date body. -/
theorem groupRows_flatMap_row_iff (etype : EntityType) (rm : SeriesMatrix)
    (bs : BenchSeries) (weights : List ℚ) (lookback minPoints : ℕ) (dates : List ℕ)
    (s : String) (d : ℕ) :
    (∃ r ∈ (dates.insertionSort (· ≤ ·)).flatMap
        (groupRowsForDate etype rm bs weights lookback minPoints),
        r.entity_name = s ∧ r.date = d) ↔
      (d ∈ dates ∧
        ∃ r ∈ groupRowsForDate etype rm bs weights lookback minPoints d,
          r.entity_name = s) := by
  constructor
  · rintro ⟨r, hr, hname, hdate⟩
    obtain ⟨a, ha, hra⟩ := List.mem_flatMap.mp hr
    have had : a = d := by
      rw [← hdate, groupRowsForDate_date etype rm bs weights lookback minPoints a r hra]
    subst had
    exact ⟨(List.perm_insertionSort (· ≤ ·) dates).mem_iff.mp ha, r, hra, hname⟩
  · rintro ⟨hd, r, hr, hname⟩
    exact ⟨r,
      List.mem_flatMap.mpr ⟨d, (List.perm_insertionSort (· ≤ ·) dates).mem_iff.mpr hd, hr⟩,
      hname, groupRowsForDate_date etype rm bs weights lookback minPoints d r hr⟩

/-- C3 (amended): for the stock class, an RS row for `(s, d)` is produced
iff `d` is a target date, both trailing windows meet the *effective*
minimum-points threshold `max 60 (min min_points (available_days / 2))`,
`s` is a known symbol and the raw score passes the `[10, 500]` validity
filter.  For the sector and industry classes the window guard is the
*configured* `min_points` itself — the effective-threshold adjustment
exists only in the stock path. -/
theorem rs_row_existence_thresholds :
    (∀ (pm : SeriesMatrix) (bs : BenchSeries) (weights : List ℚ)
        (lookback minPoints : ℕ) (dates : List ℕ) (s : String) (d : ℕ),
      (∃ r ∈ do_calculate_stock_rs pm bs weights lookback minPoints dates,
          r.entity_name = s ∧ r.date = d) ↔
        (d ∈ dates ∧
         effectiveMinPoints minPoints pm.dates.length ≤
            (windowDates pm.dates lookback d).length ∧
         effectiveMinPoints minPoints pm.dates.length ≤
            (windowDates bs.dates lookback d).length ∧
         s ∈ pm.symbols ∧
         validScore (rsScoreRaw (stockWeightedReturn pm weights lookback d s)
           (get_benchmark_quarterly_returns (benchWindowFor bs lookback d) weights)) =
             true)) ∧
    (∀ (rm : SeriesMatrix) (bs : BenchSeries) (weights : List ℚ)
        (lookback minPoints : ℕ) (dates : List ℕ) (s : String) (d : ℕ),
      (∃ r ∈ do_calculate_sector_rs rm bs weights lookback minPoints dates,
          r.entity_name = s ∧ r.date = d) ↔
        (d ∈ dates ∧
         minPoints ≤ (windowDates rm.dates lookback d).length ∧
         minPoints ≤ (windowDates bs.dates lookback d).length ∧
         s ∈ rm.symbols ∧
         validScore (rsScoreRaw (groupWeightedReturn rm weights lookback d s)
           (get_benchmark_quarterly_returns (benchWindowFor bs lookback d) weights)) =
             true)) ∧
    (∀ (rm : SeriesMatrix) (bs : BenchSeries) (weights : List ℚ)
        (lookback minPoints : ℕ) (dates : List ℕ) (s : String) (d : ℕ),
      (∃ r ∈ do_calculate_industry_rs rm bs weights lookback minPoints dates,
          r.entity_name = s ∧ r.date = d) ↔
        (d ∈ dates ∧
         minPoints ≤ (windowDates rm.dates lookback d).length ∧
         minPoints ≤ (windowDates bs.dates lookback d).length ∧
         s ∈ rm.symbols ∧
         validScore (rsScoreRaw (groupWeightedReturn rm weights lookback d s)
           (get_benchmark_quarterly_returns (benchWindowFor bs lookback d) weights)) =
             true)) := by
  refine ⟨?_, ?_, ?_⟩
  · intro pm bs weights lookback minPoints dates s d
    rw [do_calculate_stock_rs_row_iff, stockRowsForDate_name_iff]
  · intro rm bs weights lookback minPoints dates s d
    rw [show do_calculate_sector_rs rm bs weights lookback minPoints dates =
        (dates.insertionSort (· ≤ ·)).flatMap
          (groupRowsForDate .sector rm bs weights lookback minPoints) from rfl,
      groupRows_flatMap_row_iff, groupRowsForDate_name_iff]
  · intro rm bs weights lookback minPoints dates s d
    rw [show do_calculate_industry_rs rm bs weights lookback minPoints dates =
        (dates.insertionSort (· ≤ ·)).flatMap
          (groupRowsForDate .industry rm bs weights lookback minPoints) from rfl,
      groupRows_flatMap_row_iff, groupRowsForDate_name_iff]

/-- The C3 counterexample scenario's window is the full 100-day index. -/
theorem windowDates_scenC3 : windowDates dates100 252 100 = dates100 :=
  windowDates_of_all_le _ _ _
    (by
      intro x hx
      simp only [dates100, List.mem_map, List.mem_range] at hx
      obtain ⟨i, hi, rfl⟩ := hx
      omega)
    (by simp [dates100])

/-- C3 counterexample to the claim as stated: in the sector class with
100 available days and `min_data_points = 120`, the claim's effective
threshold is `max 60 (min 120 (100/2)) = 60 ≤ 100`, both windows qualify
and the raw score (100.0) is valid — yet the sector computation writes no
row, because the sector path compares the window against the configured
120 directly and 100 < 120. -/
theorem rs_row_existence_counterexample :
    ¬ ((∃ r ∈ do_calculate_sector_rs sm_scenC3 bench_scenC3 default_weight_array
          252 120 [100], r.entity_name = "S" ∧ r.date = 100) ↔
        ((100:ℕ) ∈ [100] ∧ "S" ∈ sm_scenC3.symbols ∧
          claimC3_row_expected sm_scenC3 bench_scenC3
            (fun s => rsScoreRaw (groupWeightedReturn sm_scenC3 default_weight_array 252 100 s)
              (get_benchmark_quarterly_returns (benchWindowFor bench_scenC3 252 100)
                default_weight_array))
            252 120 100 "S")) := by
  have hlen100 : dates100.length = 100 := by simp [dates100]
  have hnorow : ¬ (∃ r ∈ do_calculate_sector_rs sm_scenC3 bench_scenC3
      default_weight_array 252 120 [100], r.entity_name = "S" ∧ r.date = 100) := by
    rw [show do_calculate_sector_rs sm_scenC3 bench_scenC3 default_weight_array 252 120 [100] =
        (([100] : List ℕ).insertionSort (· ≤ ·)).flatMap
          (groupRowsForDate .sector sm_scenC3 bench_scenC3 default_weight_array 252 120)
        from rfl, groupRows_flatMap_row_iff, groupRowsForDate_name_iff]
    rintro ⟨-, hmp, -⟩
    rw [show sm_scenC3.dates = dates100 from rfl, windowDates_scenC3, hlen100] at hmp
    omega
  intro h
  apply hnorow
  apply h.mpr
  refine ⟨by simp, by simp [sm_scenC3], ?_, ?_, ?_⟩
  · rw [show sm_scenC3.dates = dates100 from rfl, windowDates_scenC3, hlen100]
    show effectiveMinPoints 120 dates100.length ≤ 100
    rw [hlen100]
    decide
  · rw [show bench_scenC3.dates = dates100 from rfl, windowDates_scenC3, hlen100]
    show effectiveMinPoints 120 dates100.length ≤ 100
    rw [hlen100]
    decide
  · have hcol : entityWindow sm_scenC3 252 100 "S" = List.replicate 100 (some (0:ℚ)) := by
      show (windowDates dates100 252 100).map (fun _ => some (0:ℚ)) = _
      rw [windowDates_scenC3, List.map_const' dates100, hlen100]
    have hbwin : benchWindowFor bench_scenC3 252 100 = List.replicate 100 (some (0:ℚ)) := by
      show (windowDates dates100 252 100).map (fun _ => some (0:ℚ)) = _
      rw [windowDates_scenC3, List.map_const' dates100, hlen100]
    have hw : groupWeightedReturn sm_scenC3 default_weight_array 252 100 "S" = 0 := by
      unfold groupWeightedReturn
      rw [hcol]
      exact bench_weighted_zero_returns 100 (by omega)
    have hbw : get_benchmark_quarterly_returns (benchWindowFor bench_scenC3 252 100)
        default_weight_array = 0 := by
      rw [hbwin]
      exact bench_weighted_zero_returns 100 (by omega)
    show validScore _ = true
    dsimp only
    rw [hw, hbw, rsScoreRaw_zero_zero]
    exact (validScore_true_iff 100).mpr (by norm_num)

/-- C2: the claim fails on the code.  In the claim's own scenario — "ABC"
and the benchmark both with 300 days of (constant 1.0) prices, default
weights, lookback 252 — the expected score per the claim is
`round((1+w_abc)/(1+w_spy)*100, 2) = 100.0` (`w_spy` compounds the
benchmark's *daily returns*, all 0).  The code instead feeds the
benchmark's raw *prices* into `_calculate_quarterly_returns_from_daily_returns`,
compounding `Π(1+price)` and producing a benchmark weighted return of
`2^63 - 1`; the raw stock score `100/2^63` falls below the validity
floor 10, so no row at all is stored for "ABC". -/
theorem stock_benchmark_prices_bug :
    do_calculate_stock_rs pm_scenC2 bench_scenC2 default_weight_array 252 120 [300] = [] ∧
      claimC2_expected_score = 100 := by
  have hlen300 : dates300.length = 300 := by simp [dates300]
  have hfilter : dates300.filter (fun x => x ≤ 300) = dates300 := by
    apply List.filter_eq_self.mpr
    intro x hx
    simp only [dates300, List.mem_map, List.mem_range] at hx
    obtain ⟨i, hi, rfl⟩ := hx
    simp
    omega
  have hwd : windowDates dates300 252 300 = dates300.drop 48 := by
    unfold windowDates
    rw [hfilter]
    show dates300.drop (dates300.length - 252) = _
    rw [hlen300]
  have hwdlen : (windowDates dates300 252 300).length = 252 := by
    rw [hwd, List.length_drop, hlen300]
  have hbwin : benchWindowFor bench_scenC2 252 300 = List.replicate 252 (some (1:ℚ)) := by
    show (windowDates dates300 252 300).map (fun _ => some (1:ℚ)) = _
    rw [List.map_const', hwdlen]
  have hcol : entityWindow pm_scenC2 252 300 "ABC" = List.replicate 252 (some (1:ℚ)) := by
    show (windowDates dates300 252 300).map (fun _ => some (1:ℚ)) = _
    rw [List.map_const', hwdlen]
  have hbw : get_benchmark_quarterly_returns (benchWindowFor bench_scenC2 252 300)
      default_weight_array = 2 ^ 63 - 1 := by
    rw [hbwin]
    unfold get_benchmark_quarterly_returns
    rw [quarterly_daily_replicate 252 1 (by omega)]
    norm_num [quarterBounds, dotProduct, default_weight_array]
  have hwo : stockWeightedReturn pm_scenC2 default_weight_array 252 300 "ABC" = 0 := by
    unfold stockWeightedReturn
    rw [hcol, quarterly_prices_replicate 252 1 (by omega) (by norm_num)]
    norm_num [dotProduct, default_weight_array]
  have hscore : rsScoreRaw 0 ((2:ℚ) ^ 63 - 1) = 100 / 2 ^ 63 := by
    unfold rsScoreRaw
    rw [if_pos (by norm_num)]
    norm_num
  constructor
  · unfold do_calculate_stock_rs
    rw [show ([300] : List ℕ).insertionSort (· ≤ ·) = [300] from rfl]
    rw [List.flatMap_cons, List.flatMap_nil, List.append_nil]
    unfold stockRowsForDate
    dsimp only
    rw [if_neg (by
      show ¬ ((windowDates dates300 252 300).length < effectiveMinPoints 120 dates300.length)
      rw [hwdlen, hlen300]
      decide)]
    rw [if_neg (by
      show ¬ ((windowDates dates300 252 300).length < effectiveMinPoints 120 dates300.length)
      rw [hwdlen, hlen300]
      decide)]
    have hvalids : validTriples pm_scenC2.symbols
        (stockWeightedReturn pm_scenC2 default_weight_array 252 300)
        (get_benchmark_quarterly_returns (benchWindowFor bench_scenC2 252 300)
          default_weight_array) = [] := by
      show validTriples ["ABC"] _ _ = []
      unfold validTriples
      rw [List.filterMap_cons, List.filterMap_nil]
      dsimp only
      rw [hwo, hbw, hscore]
      rw [if_neg (by
        rw [validScore_true_iff]
        rintro ⟨h10, -⟩
        norm_num at h10)]
    rw [hvalids]
    rfl
  · unfold claimC2_expected_score claimC2_w_abc claimC2_w_spy
    rw [quarterly_prices_replicate 252 1 (by omega) (by norm_num)]
    have hspy : dotProduct default_weight_array
        (calculate_quarterly_returns_from_daily_returns (List.replicate 252 (some 0))) = 0 :=
      bench_weighted_zero_returns 252 (by omega)
    rw [hspy]
    have habc : dotProduct default_weight_array [0, 0, 0, 0] = 0 := by
      norm_num [dotProduct, default_weight_array]
    rw [habc]
    rw [show ((1:ℚ) + 0) / (1 + 0) * 100 = 100 by norm_num]
    exact round2_100

/-- C10 witness: at the concrete scenario (last cached date 11 at close
52, provider echoing date 11 with the unchanged close), the replaced row's
daily return becomes 0. -/
theorem incremental_fetch_bridges_witness :
    find_price (incremental_fetch cached_scenC10 12 12 provider_scenC10) 11 =
      some ⟨11, 52, some 0⟩ :=
  (incremental_fetch_bridges cached_scenC10 12 12 provider_scenC10
    ⟨11, 52, some (1/25)⟩ ⟨11, 52⟩ [⟨12, 54⟩]
    rfl (by decide) (by norm_num) (by decide) rfl rfl (by decide)).2.2 rfl

end RsDashboard
